import Mathlib

/-!
Verification development for the fortios-xutils repository.

The Python modules under `fortios_xutils/` are shallowly embedded as Lean
definitions.  IPv4 address strings that match the module-level regular
expression `IPV4_IP_RE = ^(\d{1,3}\.){3}\d{1,3}(/\d{1,2})?$` are represented
structurally by `IpStr` (four decimal octet fields and an optional prefix
field); all other strings are represented by `AddrStr.other` carrying the raw
text.  Decimal fields are assumed to be written canonically (no leading
zeros), which is the only form the repository ever produces or consumes.
Python exceptions are modelled with `Except String`; the exact exception
class does not matter to any claim, only whether a call raises.
-/

deriving instance DecidableEq for Except

/-- Model of a string matching `IPV4_IP_RE`: `o1.o2.o3.o4` or
`o1.o2.o3.o4/p`.  Equality of `IpStr` values models equality of the
underlying strings (canonical decimal rendering). -/
structure IpStr where
  o1 : Nat
  o2 : Nat
  o3 : Nat
  o4 : Nat
  pfx : Option Nat
deriving DecidableEq, Repr

/-- An arbitrary Python string argument: either shaped like an IPv4 address
(with the shape captured by `IpStr`) or any other text. -/
inductive AddrStr where
  | ip (s : IpStr)
  | other (raw : String)
deriving DecidableEq, Repr

/-- `IPV4_IP_RE.match` on an `IpStr`-shaped string: each octet field has one
to three digits and the optional prefix field one or two digits. -/
def matchesIpRe (s : IpStr) : Bool :=
  s.o1 ≤ 999 && s.o2 ≤ 999 && s.o3 ≤ 999 && s.o4 ≤ 999 &&
    (match s.pfx with
     | none => true
     | some p => p ≤ 99)

/-- Whether all four octet fields are valid IPv4 octets. -/
def octetsOk (s : IpStr) : Bool :=
  s.o1 ≤ 255 && s.o2 ≤ 255 && s.o3 ≤ 255 && s.o4 ≤ 255

/-- Numeric 32-bit value of the dotted quad. -/
def ipVal (s : IpStr) : Nat :=
  ((s.o1 * 256 + s.o2) * 256 + s.o3) * 256 + s.o4

/-- The `i`-th byte (from the least significant end) of a 32-bit value. -/
def octet (x i : Nat) : Nat := x / 2 ^ (8 * i) % 256

/-- An `ipaddress.IPv4Network` value: network address and prefix length. -/
structure Net4 where
  addr : Nat
  plen : Nat
deriving DecidableEq, Repr

/-- `IPv4Network.num_addresses`. -/
def netSize (n : Net4) : Nat := 2 ^ (32 - n.plen)

/-- `str()` of an `IPv4Network`: dotted network address plus `/plen`. -/
def strOfNet (n : Net4) : IpStr :=
  IpStr.mk (octet n.addr 3) (octet n.addr 2) (octet n.addr 1) (octet n.addr 0)
    (some n.plen)

/-- `ipaddress.ip_network(s)` on an address-shaped string (strict mode, the
default): octets must be valid, the prefix (default 32) at most 32, and all
host bits zero. -/
def ipNetworkOfStr (s : IpStr) : Except String Net4 :=
  let p := s.pfx.getD 32
  if octetsOk s && p ≤ 32 && decide (ipVal s % 2 ^ (32 - p) = 0) then
    .ok (Net4.mk (ipVal s) p)
  else
    .error "ValueError: invalid ip network"

/-- `str(ipaddress.ip_interface(s))` on an address-shaped string: keeps the
host address and makes the prefix explicit (default 32). -/
def ipInterfaceOfStr (s : IpStr) : Except String IpStr :=
  let p := s.pfx.getD 32
  if octetsOk s && p ≤ 32 then
    .ok (IpStr.mk s.o1 s.o2 s.o3 s.o4 (some p))
  else
    .error "ValueError: invalid ip interface"

/-- `netutils.normalize_ip`: append `/32` when no prefix is present. -/
def normalizeIp (s : IpStr) : IpStr :=
  match s.pfx with
  | none => IpStr.mk s.o1 s.o2 s.o3 s.o4 (some 32)
  | some _ => s

/-- Membership of an address value in a network
(`IPv4Network.__contains__`). -/
def inNet (n : Net4) (v : Nat) : Bool :=
  n.addr ≤ v && v ≤ n.addr + (netSize n - 1)

/-- `net1.subnet_of(net2)` (equivalently the repository fallback
`_is_subnet_of`): range inclusion of `[network_address, broadcast_address]`. -/
def subnetOf (a b : Net4) : Bool :=
  b.addr ≤ a.addr && a.addr + (netSize a - 1) ≤ b.addr + (netSize b - 1)

/-- `n.supernet(new_prefix=p)` for `p ≤ n.plen`: truncate the network
address to `p` bits. -/
def truncNet (n : Net4) (p : Nat) : Net4 :=
  Net4.mk (n.addr / 2 ^ (32 - p) * 2 ^ (32 - p)) p

/-- `netutils.to_network`: regex check, then `ip_network`; on `ValueError`
(host bits set, or an over-long prefix) retry with the prefix stripped and
normalized to `/32`.  A failure of the second parse propagates. -/
def toNetwork (a : AddrStr) : Except String Net4 :=
  match a with
  | .other _ => .error "ValueError: an ip address str was expected"
  | .ip s =>
    if !matchesIpRe s then .error "ValueError: an ip address str was expected"
    else
      match ipNetworkOfStr s with
      | .ok n => .ok n
      | .error _ => ipNetworkOfStr (IpStr.mk s.o1 s.o2 s.o3 s.o4 (some 32))

/-- The loop body of the generator behind `netutils.is_ip_in_addrs`, with the
short-circuit of `any()`: stop at the first containing candidate.  `ipa` is
the already-normalized query string. -/
def isIpInAddrsAux (ipa : IpStr) : List AddrStr → Except String Bool
  | [] => .ok false
  | a :: rest =>
    if a = .ip ipa then .ok true
    else do
      let net ← toNetwork a
      let iface ← ipInterfaceOfStr ipa
      if inNet net (ipVal iface) then .ok true else isIpInAddrsAux ipa rest

/-- `netutils.is_ip_in_addrs` for an address-shaped query string. -/
def isIpInAddrs (ip : IpStr) (addrs : List AddrStr) : Except String Bool :=
  if addrs.isEmpty then .ok false
  else isIpInAddrsAux (normalizeIp ip) addrs

/-- The full materialization of `netutils.list_addrs_contain_the_ip_itr`
(as consumed by `list(...)`): every containing candidate, in order; an
unparseable candidate raises before later candidates are produced. -/
def listAddrsContainTheIpAux (ipa : IpStr) :
    List AddrStr → Except String (List AddrStr)
  | [] => .ok []
  | a :: rest =>
    if a = .ip ipa then do
      let r ← listAddrsContainTheIpAux ipa rest
      .ok (a :: r)
    else do
      let net ← toNetwork a
      let iface ← ipInterfaceOfStr ipa
      let r ← listAddrsContainTheIpAux ipa rest
      .ok (if inNet net (ipVal iface) then a :: r else r)

/-- `list(netutils.list_addrs_contain_the_ip_itr(ip, addrs))`. -/
def listAddrsContainTheIp (ip : IpStr) (addrs : List AddrStr) :
    Except String (List AddrStr) :=
  if addrs.isEmpty then .ok []
  else listAddrsContainTheIpAux (normalizeIp ip) addrs

/-- The result of `netutils.distance`: a number or `math.inf`. -/
inductive DistR where
  | fin (n : Nat)
  | inf
deriving DecidableEq, Repr

/-- The inner search of `netutils.supernet_of_networks` once the two
networks have been sorted by prefix length: `base` is the network with the
smaller prefix length; prefixes are tried from `min base.plen 32` down to 1
and the first supernet of `base` containing `other` is returned. -/
def findSupernetFrom (base other : Net4) : Option Net4 :=
  ((List.range (min base.plen 32)).map (fun i => min base.plen 32 - i)).findSome?
    (fun p =>
      let c := truncNet base p
      if subnetOf other c then some c else none)

/-- `netutils.supernet_of_networks(no1, no2)` as called from `distance`
(two `IPv4Network` arguments, default `max_prefix=32`).  `sorted` by prefix
length is stable, so the first argument is the base on ties. -/
def supernetOfTwo (a b : Net4) : Option Net4 :=
  if a.plen ≤ b.plen then findSupernetFrom a b else findSupernetFrom b a

/-- The body of `netutils.distance` after both strings parsed to networks
(`base` keeps its default value 1 throughout the repository). -/
def distNets (no1 no2 : Net4) : DistR :=
  if netSize no1 = 1 && inNet no2 no1.addr then .fin 1
  else if netSize no2 = 1 && inNet no1 no2.addr then .fin 1
  else if subnetOf no1 no2 || subnetOf no2 no1 then
    .fin (max no1.plen no2.plen - min no1.plen no2.plen)
  else
    match supernetOfTwo no1 no2 with
    | none => .inf
    | some sn => .fin (no1.plen + no2.plen - 2 * sn.plen)

/-- `netutils.distance(net1, net2)`: string equality short-circuits to 0
before any parsing; then both strings are parsed with `ip_network` (errors
propagate) and the network-level rules apply. -/
def distanceS (n1 n2 : AddrStr) : Except String DistR :=
  if n1 = n2 then .ok (.fin 0)
  else
    match n1, n2 with
    | .ip s1, .ip s2 => do
      let no1 ← ipNetworkOfStr s1
      let no2 ← ipNetworkOfStr s2
      .ok (distNets no1 no2)
    | _, _ => .error "ValueError: not an ip network"

/-- The all-ones netmask value `2^32 - 2^(32-p)` for prefix length `p`. -/
def maskBits (p : Nat) : Nat := 2 ^ 32 - 2 ^ (32 - p)

/-- The hostmask value `2^(32-p) - 1` for prefix length `p`. -/
def hostBits (p : Nat) : Nat := 2 ^ (32 - p) - 1

/-- The `_make_netmask` helper of `ipaddress` on a dotted mask value: read
it as a netmask (ones then zeros), then as a hostmask (zeros then ones). -/
def prefixOfMaskVal (m : Nat) : Option Nat :=
  match (List.range 33).find? (fun p => m == maskBits p) with
  | some p => some p
  | none => (List.range 33).find? (fun p => m == hostBits p)

/-- `ipaddress.ip_network(addr + "/" + netmask)` for two `IpStr`-shaped
pieces, strict mode: a prefix on either piece makes the joined string have
two slashes (rejected), the address and mask octets must be valid, the mask
must denote a prefix, and host bits must be zero. -/
def ipNetworkWithMask (sa sm : IpStr) : Except String Net4 :=
  if sa.pfx.isSome || sm.pfx.isSome then
    .error "ValueError: only one slash permitted"
  else if !octetsOk sa then .error "ValueError: invalid address"
  else if !octetsOk sm then .error "ValueError: invalid netmask"
  else
    match prefixOfMaskVal (ipVal sm) with
    | none => .error "ValueError: not a netmask"
    | some p =>
      if ipVal sa % 2 ^ (32 - p) = 0 then .ok (Net4.mk (ipVal sa) p)
      else .error "ValueError: host bits set"

/-- The literal string `255.255.255.255` (the unicast netmask pattern
`UNI_NETMASK_RE`; among `IPV4_IP_RE`-shaped strings only this one
matches it). -/
def uniNetmask : IpStr := IpStr.mk 255 255 255 255 none

/-- `netutils.subnet_to_ip(addr, netmask)`: type/regex checks, the unicast
netmask special case, then `ip_network` of the joined string with a
fallback to `ip_interface(addr)` on `ValueError`. -/
def subnetToIp (addr netmask : AddrStr) : Except String IpStr :=
  match addr, netmask with
  | .ip sa, .ip sm =>
    if !(matchesIpRe sa && matchesIpRe sm) then
      .error "ValueError: should be address"
    else if sm = uniNetmask then ipInterfaceOfStr sa
    else
      match ipNetworkWithMask sa sm with
      | .ok n => .ok (strOfNet n)
      | .error _ => ipInterfaceOfStr sa
  | _, _ => .error "ValueError: should be address"

/-- The counting loop of `netaddr.iter_iprange`, driven by explicit fuel so
that it reduces structurally. -/
def iterIprangeGo : Nat → Nat → Nat → List Nat
  | 0, _, _ => []
  | fuel + 1, lo, hi => if lo ≤ hi then lo :: iterIprangeGo fuel (lo + 1) hi else []

/-- `netaddr.iter_iprange(start, end)` on 32-bit values: every value from
`lo` to `hi` inclusive, empty when `lo > hi`. -/
def iterIprange (lo hi : Nat) : List Nat :=
  iterIprangeGo (hi + 1 - lo) lo hi

/-- Build the dotted string of a 32-bit value with an explicit prefix
field, modelling `"{!s}/{!s}".format(ip, prefix)`. -/
def mkIpWithPfx (v p : Nat) : IpStr :=
  IpStr.mk (octet v 3) (octet v 2) (octet v 1) (octet v 0) (some p)

/-- `netutils.iprange_to_ipsets(start_ip, end_ip, prefix)`: type/regex
checks, the same-first-octet guard (a string comparison of the first dotted
fields), then `netaddr` parsing and enumeration. -/
def iprangeToIpsets (startIp endIp : AddrStr) (pfx : Nat) :
    Except String (List IpStr) :=
  match startIp, endIp with
  | .ip ss, .ip se =>
    if !(matchesIpRe ss && matchesIpRe se) then
      .error "ValueError: should be address"
    else if ss.o1 ≠ se.o1 then
      .error "ValueError: looks in different networks"
    else if ss.pfx.isSome || se.pfx.isSome then
      .error "AddrFormatError: not a bare address"
    else if !(octetsOk ss && octetsOk se) then
      .error "AddrFormatError: invalid octets"
    else
      .ok ((iterIprange (ipVal ss) (ipVal se)).map (fun v => mkIpWithPfx v pfx))
  | _, _ => .error "ValueError: should be address"

/-!
Models of `fortios_xutils/finder.py`.  The nodes of a graph document carry the
attributes the finder reads (`id`, `name`, `type`, `addrs`); the derived
attributes `type_id`, `class` and `label` added by `network.add_node_info`
are functions of these and are not read by the finder, so they are omitted
from this record.  `networkx.Graph` node insertion keeps first-seen key
order and updates attributes on re-insertion, which `pyUpsert` mirrors.
The theorems below only consider documents in which every edge endpoint is
the id of some listed node, matching every document the package produces
(otherwise `networkx` would create attribute-less nodes whose later
`n["id"]` lookups raise).
-/

/-- A node record of a graph document, as read by the finder. -/
structure GNode where
  id : String
  name : String
  type : String
  addrs : List AddrStr
deriving DecidableEq, Repr

/-- An edge record of a graph document. -/
structure GEdge where
  id : String
  type : String
  source : String
  target : String
  distance : Nat
deriving DecidableEq, Repr

/-- A graph document (`nodes` and `links`), after structural validation. -/
structure GraphDoc where
  nodes : List GNode
  links : List GEdge
deriving DecidableEq, Repr

/-- Python-dict keyed insertion: a later value for an existing key replaces
the stored value in place, a new key is appended.  Models both
`networkx.Graph.add_nodes_from` re-insertion and dict comprehensions keyed
by `id`. -/
def pyUpsert (key : α → String) (acc : List α) (x : α) : List α :=
  if acc.any (fun y => key y == key x) then
    acc.map (fun y => if key y == key x then x else y)
  else acc ++ [x]

/-- Keyed de-duplication with last-occurrence-wins, first-seen order
(the `.values()` of a Python dict built left to right). -/
def pyDictValues (key : α → String) (l : List α) : List α :=
  l.foldl (pyUpsert key) []

/-- The node list of the `networkx.Graph` built by `finder.load`, in graph
iteration order. -/
def loadNodes (doc : GraphDoc) : List GNode :=
  pyDictValues GNode.id doc.nodes

/-- Adjacency of the loaded undirected graph: neighbours of `x` in first
insertion order, as `networkx` stores them. -/
def neighborsOf (doc : GraphDoc) (x : String) : List String :=
  doc.links.foldl
    (fun acc e =>
      let acc1 :=
        if e.source == x && !(acc.contains e.target) then acc ++ [e.target]
        else acc
      if e.target == x && !(acc1.contains e.source) then acc1 ++ [e.source]
      else acc1)
    []

/-- Equality of undirected edge keys: two ordered endpoint pairs name the
same `networkx` edge when they agree or are swapped. -/
def sameEdgeKey (a b : String × String) : Bool :=
  (a.1 == b.1 && a.2 == b.2) || (a.1 == b.2 && a.2 == b.1)

/-- The edge store of the `networkx.Graph` built by `finder.load`: the loop
over the links calls `add_edge(source, target, **edge)`, which keeps one
entry per undirected endpoint pair and attaches the whole link record as
edge attributes (so `distance` and the remaining fields travel with the
edge); re-adding an existing pair updates the stored attributes in place,
keeping the first-seen key. -/
def loadEdges (doc : GraphDoc) : List ((String × String) × GEdge) :=
  doc.links.foldl
    (fun acc e =>
      if acc.any (fun pr => sameEdgeKey pr.1 (e.source, e.target)) then
        acc.map (fun pr =>
          if sameEdgeKey pr.1 (e.source, e.target) then (pr.1, e) else pr)
      else acc ++ [((e.source, e.target), e)])
    []

/-- One BFS level: extend every frontier path (stored reversed) by each
neighbour not already on the path. -/
def extendPaths (doc : GraphDoc) (ps : List (List String)) :
    List (List String) :=
  ps.flatMap (fun p =>
    match p with
    | [] => []
    | h :: _ =>
      (neighborsOf doc h).filterMap
        (fun v => if p.contains v then none else some (v :: p)))

/-- Level-by-level BFS over simple paths: the first level containing a path
ending at `t` holds exactly the shortest paths. -/
def bfsShortest (doc : GraphDoc) (t : String) :
    Nat → List (List String) → Option (List (List String))
  | 0, _ => none
  | fuel + 1, frontier =>
    if frontier.isEmpty then none
    else
      let done := frontier.filter (fun p => p.head? == some t)
      if !done.isEmpty then some (done.map List.reverse)
      else bfsShortest doc t fuel (extendPaths doc frontier)

/-- `networkx.all_shortest_paths(graph, s, t)` with the default unweighted
method, as a list of node-id paths; `none` models the `NetworkXNoPath`
exception.  The order in which the shortest paths are enumerated is not
relied on by any claim. -/
def allShortestPaths (doc : GraphDoc) (s t : String) :
    Option (List (List String)) :=
  bfsShortest doc t (doc.nodes.length + 1) [[s]]

/-- `finder.find_net_nodes_by_ip` restricted to an in-memory document:
nodes whose `addrs` contain the ip, sorted by the prefix length of their
first address, most specific first (`sorted(..., reverse=True)` is stable,
so ties keep graph iteration order). -/
def findNetNodesByIp (doc : GraphDoc) (ip : IpStr) :
    Except String (List GNode) := do
  let matched ← (loadNodes doc).filterM (fun n => isIpInAddrs ip n.addrs)
  let keyed ← matched.mapM (fun n => do
    match n.addrs with
    | [] => .error "IndexError: node without addrs"
    | a :: _ => do
      let net ← toNetwork a
      pure (n, net.plen))
  pure ((List.insertionSort (fun a b : GNode × Nat => b.2 ≤ a.2) keyed).map
    Prod.fst)

/-- `finder.find_a_net_node_by_ip`. -/
def findANetNodeByIp (doc : GraphDoc) (ip : IpStr) :
    Except String (Option GNode) := do
  pure (← findNetNodesByIp doc ip).head?

/-- Truthiness of the `node_type` argument (`False`/`None`/empty string are
all falsy). -/
def ntTruthy : Option String → Bool
  | none => false
  | some s => !(s == "")

/-- The same-node condition of `finder.find_paths_itr`:
`not node_type or (node_type and node_type != NODE_ANY and
src_net["type"] == node_type)`. -/
def sameNodeCond (nt : Option String) (sn : GNode) : Bool :=
  !(ntTruthy nt) || (ntTruthy nt && !(nt == some "any") && (some sn.type == nt))

/-- `finder.select_unique_paths_itr`: drop paths whose ordered node-id
tuple has been seen. -/
def selectUniquePathsAux (seen : List (List String)) :
    List (List GNode) → List (List GNode)
  | [] => []
  | p :: rest =>
    let key := p.map GNode.id
    if seen.contains key then selectUniquePathsAux seen rest
    else p :: selectUniquePathsAux (key :: seen) rest

/-- `list(finder.select_unique_paths_itr(paths))`. -/
def selectUniquePaths (ps : List (List GNode)) : List (List GNode) :=
  selectUniquePathsAux [] ps

/-- `list(finder.find_paths_itr(...))` on a loaded document, with the
default (unweighted) shortest-path options. -/
def findPathsF (doc : GraphDoc) (src dst : IpStr) (nodeType : Option String) :
    Except String (List (List GNode)) := do
  let srcN ← findANetNodeByIp doc src
  let dstN ← findANetNodeByIp doc dst
  match srcN, dstN with
  | some sn, some dn =>
    if sn = dn then
      if sameNodeCond nodeType sn then pure [[sn]] else pure []
    else
      match allShortestPaths doc sn.id dn.id with
      | none => .error "NetworkXNoPath"
      | some pids =>
        let res := pids.map
          (fun ns => (loadNodes doc).filter (fun n => ns.contains n.id))
        let res :=
          if ntTruthy nodeType && !(nodeType == some "any") then
            selectUniquePaths
              (res.map (fun p => p.filter (fun n => some n.type == nodeType)))
          else res
        pure res
  | _, _ => pure []

/-!
Model of `finder.validate`.  The loaded document is an arbitrary structured
value (`PyVal`); the checks are, in source order: truthiness, mapping type,
presence of the `nodes` and `links` keys, and `collections.abc.Iterable`
membership of both values (note that mappings, lists and strings are all
iterable in Python).
-/

/-- A loaded structured value (JSON/YAML-equivalent). -/
inductive PyVal where
  | dict (entries : List (String × PyVal))
  | list (items : List PyVal)
  | str (s : String)
  | int (n : Int)
  | none'

/-- Python truthiness of a loaded value. -/
def pyTruthy : PyVal → Bool
  | .dict l => !l.isEmpty
  | .list l => !l.isEmpty
  | .str s => !(s == "")
  | .int n => !(n == 0)
  | .none' => false

/-- `isinstance(v, collections.abc.Mapping)`. -/
def pyIsMapping : PyVal → Bool
  | .dict _ => true
  | _ => false

/-- `isinstance(v, collections.abc.Iterable)`: dicts, lists and strings are
iterable; numbers and `None` are not. -/
def pyIsIterable : PyVal → Bool
  | .dict _ => true
  | .list _ => true
  | .str _ => true
  | _ => false

/-- Key lookup in a (unique-keyed) Python dict. -/
def pyGet (l : List (String × PyVal)) (k : String) : Option PyVal :=
  (l.find? (fun e => e.1 == k)).map (fun e => e.2)

/-- The error classes raised by `finder.validate`. -/
inductive VErr where
  | valueError
  | typeError
deriving DecidableEq, Repr

/-- `finder.validate(cnf)`: the four checks in source order. -/
def finderValidate (cnf : PyVal) : Except VErr Unit :=
  if !pyTruthy cnf then .error .valueError
  else
    match cnf with
    | .dict l =>
      if (pyGet l "nodes").isNone || (pyGet l "links").isNone then
        .error .valueError
      else if !((pyGet l "nodes").all pyIsIterable &&
                (pyGet l "links").all pyIsIterable) then
        .error .valueError
      else .ok ()
    | _ => .error .typeError

/-!
Models of the graph composition in `fortios_xutils/network.py`
(`load_network_graph_files_itr`, `_compose_nodes_itr`,
`compose_network_files`).  The loaded files are modelled as already-parsed
graph documents (the skip-on-malformed branch of the loader concerns the
file boundary).  Stream items are heterogeneous dicts distinguished by
their `type` field; the `class`/`label` mutation of the composition writes two
keys into the stored mapping, which for the node records produced by this
package is modelled by `recompNode` (on a non-node mapping the mutation
would add the keys to a record that never re-enters a document; the typed
model leaves such items unchanged, and the theorems only consider streams
whose type fields are well-formed).
-/

/-- A full node record of a stored graph document (all attributes written
by `network.add_node_info`). -/
structure CNode where
  id : String
  name : String
  type : String
  addrs : List String
  typeId : Nat
  cls : String
  label : String
deriving DecidableEq, Repr

/-- The metadata record of a stored graph document. -/
structure CMeta where
  type : String
  source : String
deriving DecidableEq, Repr

/-- A heterogeneous item of the flattened stream produced by
`load_network_graph_files_itr`: metadata, then nodes, then links per file. -/
inductive GItem where
  | node (n : CNode)
  | edge (e : GEdge)
  | meta (m : CMeta)
deriving DecidableEq, Repr

/-- The `type` field of a stream item. -/
def itemType : GItem → String
  | .node n => n.type
  | .edge e => e.type
  | .meta m => m.type

/-- The `id` field of a stream item (metadata records have none; they are
filtered out before any id access in well-formed streams). -/
def itemId : GItem → String
  | .node n => n.id
  | .edge e => e.id
  | .meta _ => ""

/-- The `source` field of a stream item (only metadata records carry one). -/
def itemSource : GItem → String
  | .meta m => m.source
  | _ => ""

/-- A stored graph document as consumed by `compose_network_files`. -/
structure CDoc where
  metadata : CMeta
  nodes : List CNode
  links : List GEdge
deriving DecidableEq, Repr

/-- `load_network_graph_files_itr`: per document, yield the metadata, then
every node, then every link. -/
def docStream (docs : List CDoc) : List GItem :=
  docs.flatMap (fun d =>
    GItem.meta d.metadata ::
      (d.nodes.map GItem.node ++ d.links.map GItem.edge))

/-- The `class`/`label` mutation `_compose_nodes_itr` applies to every
merged node: `class = "node {type}"`, `label = "{id} {type}"`. -/
def recompNode (n : CNode) : CNode :=
  { n with cls := "node " ++ n.type, label := n.id ++ " " ++ n.type }

/-- The mutation lifted to stream items (see the section comment). -/
def recompItem : GItem → GItem
  | .node n => .node (recompNode n)
  | it => it

/-- `_compose_nodes_itr(graph)`: keep items whose `type` is neither
`edge` nor `metadata`, de-duplicate by `id` via a dict comprehension
(last occurrence wins, first-seen order), then recompute
`class`/`label`. -/
def composeNodes (docs : List CDoc) : List GItem :=
  (pyDictValues itemId
      ((docStream docs).filter
        (fun it => itemType it != "edge" && itemType it != "metadata"))).map
    recompItem

/-- The link half of `compose_network_files`: keep items whose `type` is
`edge`, de-duplicate by `id` via a dict comprehension (last occurrence
wins, first-seen order). -/
def composeLinks (docs : List CDoc) : List GItem :=
  pyDictValues itemId
    ((docStream docs).filter (fun it => itemType it == "edge"))

/-- The merged document of `compose_network_files` (metadata reduced to its
`sources` list; the fresh timestamp and version are beyond the model). -/
structure ComposedDoc where
  nodes : List GItem
  links : List GItem
  sources : List String
deriving DecidableEq, Repr

/-- `network.compose_network_files` on already-loaded documents. -/
def composeNetworkFiles (docs : List CDoc) : ComposedDoc :=
  { nodes := composeNodes docs
    links := composeLinks docs
    sources :=
      ((docStream docs).filter (fun it => itemType it == "metadata")).map
        itemSource }

/-!
Models of the reference resolution in `fortios_xutils/firewall.py`
(`get_firewall_address_by_edit`, `get_firewall_address_by_edits`,
`resolv_src_and_dst_in_fp`).  A combined-address-table row is reduced to the
two columns the resolution reads: `edit` and `addrs` (the fillna call turns a
missing `addrs` cell into a falsy value, modelled by the empty list; the
other columns of the table are never read here).  The Python `sorted` on
strings is a stable lexicographic sort, modelled by `List.insertionSort`
on Lean strings (the orders coincide: both compare code points).
-/

/-- A row of the combined firewall address table, restricted to the columns
read by the policy resolution. -/
structure FaRow where
  edit : String
  addrs : List String
deriving DecidableEq, Repr

/-- Lexicographic comparison of code-point lists (Python string `<=`). -/
def cpLe : List Char → List Char → Bool
  | [], _ => true
  | _ :: _, [] => false
  | c :: cs, d :: ds =>
    if c.toNat < d.toNat then true
    else if d.toNat < c.toNat then false
    else cpLe cs ds

/-- Python string comparison `a <= b` (by code points). -/
def pyStrLe (a b : String) : Bool := cpLe a.data b.data

/-- The ordering relation used by Python `sorted` on strings. -/
def PyLe (a b : String) : Prop := pyStrLe a b = true

instance : DecidableRel PyLe := fun a b => by
  unfold PyLe
  infer_instance

/-- Python `sorted` on a list of strings: a stable sort; modelled with
insertion sort, which is stable in the same sense. -/
def sortedStrings (l : List String) : List String :=
  List.insertionSort PyLe l

/-- `firewall.get_firewall_address_by_edit(edit, df_fa)`: the sorted
concatenation of the `addrs` cells of every row whose `edit` matches
(rows with a falsy `addrs` cell contribute nothing). -/
def getFirewallAddressByEdit (edit : String) (df : List FaRow) :
    List String :=
  sortedStrings ((df.filter (fun r => r.edit == edit)).flatMap FaRow.addrs)

/-- A `srcaddr`/`dstaddr` cell: a single reference string or a list of
reference strings. -/
abbrev AddrRef : Type := String ⊕ List String

/-- `firewall.get_firewall_address_by_edits(edits, df_fa)`. -/
def getFirewallAddressByEdits (r : AddrRef) (df : List FaRow) : List String :=
  match r with
  | .inl e => getFirewallAddressByEdit e df
  | .inr es =>
    sortedStrings (es.flatMap (fun e => getFirewallAddressByEdit e df))

/-- A firewall policy record, restricted to the resolved columns. -/
structure FwPolicy where
  srcaddr : Option AddrRef
  dstaddr : Option AddrRef
  srcaddrs : Option (List String)
  dstaddrs : Option (List String)
deriving DecidableEq, Repr

/-- Python truthiness of a reference cell (an empty string or an empty list is falsy). -/
def refTruthy : AddrRef → Bool
  | .inl s => !(s == "")
  | .inr l => !l.isEmpty

/-- `firewall.resolv_src_and_dst_in_fp(fp_dict, df_fa)`. -/
def resolvSrcAndDstInFp (fp : FwPolicy) (df : List FaRow) : FwPolicy :=
  let fp1 :=
    match fp.srcaddr with
    | some r =>
      if refTruthy r then
        { fp with srcaddrs := some (getFirewallAddressByEdits r df) }
      else fp
    | none => fp
  match fp1.dstaddr with
  | some r =>
    if refTruthy r then
      { fp1 with dstaddrs := some (getFirewallAddressByEdits r df) }
    else fp1
  | none => fp1

/-- The reference names denoted by a cell. -/
def refNames : AddrRef → List String
  | .inl e => [e]
  | .inr es => es

/-!
Models of the configuration-tree queries used by graph construction
(`parser.has_vdom`, `parser.hostname_from_configs`,
`network.list_interface_addrs`) and of the opening of
`network.node_and_edges_from_config_file_itr` (its lines through the
interface-network yields).  The remaining yields of that generator place
firewall-address-derived networks next to the interface networks and never
touch the host node, so they are outside this model.  A top-level entry of
the tree is a leaf config block, a `vdom` container or the `global`
container, distinguished in the source by the `config` field of the entry.
-/

/-- An `edit` block of a leaf config, restricted to the fields the model
reads (the `ip` pair of a `system interface` edit). -/
structure CfgEdit where
  edit : String
  ip : Option (AddrStr × AddrStr)
deriving DecidableEq, Repr

/-- A leaf config block: its `config` name, an optional `hostname` key
(for `system global`), and its `edits`. -/
structure LeafCfg where
  cname : String
  hostname : Option String
  edits : List CfgEdit
deriving DecidableEq, Repr

/-- A top-level entry of the parsed configuration tree. -/
inductive TopCfg where
  | leaf (l : LeafCfg)
  | vdomEntry (edits : List (String × List LeafCfg))
  | globalEntry (configs : List LeafCfg)
deriving DecidableEq, Repr

/-- A parsed configuration tree (`{"configs": [...]}`). -/
structure CfgTree where
  configs : List TopCfg
deriving DecidableEq, Repr

/-- The `config` field of a top-level entry. -/
def topName : TopCfg → String
  | .leaf l => l.cname
  | .vdomEntry _ => "vdom"
  | .globalEntry _ => "global"

/-- `parser.has_vdom`. -/
def hasVdom (c : CfgTree) : Bool :=
  c.configs.any (fun t => topName t == "vdom")

/-- The filter `configs[?config==nm]` over the top level: matching leaf blocks. -/
def leafBlocksNamed (blocks : List TopCfg) (nm : String) : List LeafCfg :=
  blocks.filterMap (fun t =>
    match t with
    | .leaf l => if l.cname == nm then some l else none
    | _ => none)

/-- The `_global_path_exp` variant:
`configs[?config==global] | [0].configs[?config==nm]`. -/
def globalBlocksNamed (blocks : List TopCfg) (nm : String) : List LeafCfg :=
  match (blocks.filterMap (fun t =>
      match t with
      | .globalEntry cs => some cs
      | _ => none)).head? with
  | some cs => cs.filter (fun l => l.cname == nm)
  | none => []

/-- The `_vdoms_path_exp` variant:
`configs[?config==vdom].edits[].configs[?config==nm][]`. -/
def vdomBlocksNamed (blocks : List TopCfg) (nm : String) : List LeafCfg :=
  (blocks.filterMap (fun t =>
      match t with
      | .vdomEntry es => some es
      | _ => none)).flatMap
    (fun es => es.flatMap (fun ed => ed.2.filter (fun l => l.cname == nm)))

/-- The search `parser.jmespath_search` for config name `nm` over `cnf`:
single-domain direct search, or the global results followed by the
per-domain results (empty halves are dropped, which plain concatenation
already models). -/
def searchBlocks (c : CfgTree) (hasVd : Bool) (nm : String) : List LeafCfg :=
  if !hasVd then leafBlocksNamed c.configs nm
  else globalBlocksNamed c.configs nm ++ vdomBlocksNamed c.configs nm

/-- Python `str.lower()` (character-wise lowercasing; identical to the
Python function on the ASCII hostnames this repository handles). -/
def lowerString (s : String) : String :=
  String.mk (s.data.map Char.toLower)

/-- `parser.hostname_from_configs`: first matching `system global` block
(raising when none), then the lowercased hostname value, with a missing or
empty value mapped to None. -/
def hostnameFromConfigs (c : CfgTree) (hasVd : Bool) :
    Except String (Option String) :=
  match searchBlocks c hasVd "system global" with
  | [] => .error "ValueError: no system global configs found"
  | sg :: _ =>
    let h := lowerString (sg.hostname.getD "")
    .ok (if h == "" then none else some h)

/-- An `ipaddress.IPv4Interface` value: host address and prefix length. -/
structure Iface4 where
  addr : Nat
  plen : Nat
deriving DecidableEq, Repr

/-- `ipaddress.ip_interface(addr + "/" + mask)` for two `IpStr`-shaped
pieces (no strict host-bits check on interfaces). -/
def ipInterfaceWithMask (sa sm : AddrStr) : Except String Iface4 :=
  match sa, sm with
  | .ip a, .ip m =>
    if a.pfx.isSome || m.pfx.isSome then
      .error "ValueError: only one slash permitted"
    else if !octetsOk a then .error "ValueError: invalid address"
    else if !octetsOk m then .error "ValueError: invalid netmask"
    else
      match prefixOfMaskVal (ipVal m) with
      | some p => .ok (Iface4.mk (ipVal a) p)
      | none => .error "ValueError: not a netmask"
  | _, _ => .error "ValueError: invalid interface"

/-- `str()` of an `IPv4Interface`: host address with explicit prefix. -/
def strOfIface (i : Iface4) : AddrStr :=
  .ip (mkIpWithPfx i.addr i.plen)

/-- `IPv4Interface.network`. -/
def ifaceNetwork (i : Iface4) : Net4 :=
  truncNet (Net4.mk i.addr i.plen) i.plen

/-- `network.list_interface_addrs`: the `ip` pairs of every
`system interface` edit (edits without an `ip` key are dropped by the
JMESPath projection), converted with `ip_interface`. -/
def listInterfaceAddrs (c : CfgTree) (hasVd : Bool) :
    Except String (List Iface4) :=
  ((searchBlocks c hasVd "system interface").flatMap
      (fun l => l.edits.filterMap CfgEdit.ip)).mapM
    (fun pr => ipInterfaceWithMask pr.1 pr.2)

/-- The host node and the interface networks produced by the opening of
`network.node_and_edges_from_config_file_itr` (hostname resolution and
check, interface collection and check, the firewall host node, and one
network node and distance-1 edge per interface network). -/
structure DeviceGraphStart where
  host : GNode
  ifNets : List Net4
deriving DecidableEq, Repr

/-- Lines 152-178 of `network.node_and_edges_from_config_file_itr` (the
loaded tree is passed directly; the file handling of `parser.load` is at the
excluded boundary). -/
def nodeAndEdgesStart (c : CfgTree) : Except String DeviceGraphStart := do
  let hn ← hostnameFromConfigs c (hasVdom c)
  match hn with
  | none => .error "ValueError: hostname configuration was not found"
  | some hostname => do
    let ifas ← listInterfaceAddrs c (hasVdom c)
    if ifas.isEmpty then
      .error "ValueError: interfaces were not found"
    else
      .ok
        { host :=
            { id := hostname, name := hostname, type := "firewall"
              addrs := ifas.map strOfIface }
          ifNets := ifas.map ifaceNetwork }

theorem find?_cons_pos (p : α → Bool) (a : α) (l : List α) (h : p a = true) :
    List.find? p (a :: l) = some a :=
  List.find?_cons_of_pos l h

theorem find?_cons_neg (p : α → Bool) (a : α) (l : List α) (h : p a = false) :
    List.find? p (a :: l) = List.find? p l :=
  List.find?_cons_of_neg l (by simp [h])

theorem pyReplace_map_key (key : α → String) (x : α) :
    ∀ l : List α,
      (l.map (fun y => if (key y == key x) = true then x else y)).map key =
        l.map key
  | [] => rfl
  | a :: l => by
    simp only [List.map_cons]
    by_cases ha : (key a == key x) = true
    · have hka : key a = key x := by simpa using ha
      rw [if_pos ha, pyReplace_map_key key x l, hka]
    · rw [if_neg ha, pyReplace_map_key key x l]

theorem pyUpsert_map_key_absent (key : α → String) (acc : List α) (x : α)
    (h : acc.any (fun y => key y == key x) = false) :
    (pyUpsert key acc x).map key = acc.map key ++ [key x] := by
  simp [pyUpsert, h]

theorem pyReplace_find?_eq (key : α → String) (x : α) (i : String)
    (hxi : key x = i) :
    ∀ l : List α, (∃ y ∈ l, key y = key x) →
      (l.map (fun y => if (key y == key x) = true then x else y)).find?
          (fun y => key y == i) = some x
  | [], h => by simp at h
  | a :: l, h => by
    simp only [List.map_cons]
    by_cases ha : (key a == key x) = true
    · rw [if_pos ha]
      exact find?_cons_pos (fun y => key y == i) x _ (by simpa using hxi)
    · rw [if_neg ha]
      have hne : ¬ key a = key x := by simpa using ha
      have hpa : (key a == i) = false := by
        simp only [beq_eq_false_iff_ne, ne_eq]
        intro hc
        exact hne (hc.trans hxi.symm)
      have step :
          (List.map (fun y => if (key y == key x) = true then x else y) l).find?
              (fun y => key y == i) = some x := by
        apply pyReplace_find?_eq key x i hxi l
        obtain ⟨y0, hmem, hkey⟩ := h
        rcases List.mem_cons.mp hmem with rfl | hm
        · exact absurd hkey hne
        · exact ⟨y0, hm, hkey⟩
      rw [find?_cons_neg (fun y => key y == i) a _ hpa, step]

theorem pyReplace_find?_ne (key : α → String) (x : α) (i : String)
    (hxi : ¬ key x = i) :
    ∀ l : List α,
      (l.map (fun y => if (key y == key x) = true then x else y)).find?
          (fun y => key y == i) = l.find? (fun y => key y == i)
  | [] => rfl
  | a :: l => by
    simp only [List.map_cons]
    by_cases ha : (key a == key x) = true
    · have hka : key a = key x := by simpa using ha
      have hpx : (key x == i) = false := by simpa using hxi
      have hpa : (key a == i) = false := by
        simp only [beq_eq_false_iff_ne, ne_eq]
        intro hc
        exact hxi (hka ▸ hc)
      rw [if_pos ha, find?_cons_neg (fun y => key y == i) x _ hpx,
        find?_cons_neg (fun y => key y == i) a _ hpa]
      exact pyReplace_find?_ne key x i hxi l
    · rw [if_neg ha]
      by_cases hp : (key a == i) = true
      · rw [find?_cons_pos (fun y => key y == i) a _ hp,
          find?_cons_pos (fun y => key y == i) a _ hp]
      · have hpf : (key a == i) = false := by simpa using hp
        rw [find?_cons_neg (fun y => key y == i) a _ hpf,
          find?_cons_neg (fun y => key y == i) a _ hpf]
        exact pyReplace_find?_ne key x i hxi l

theorem find?_pyUpsert (key : α → String) (acc : List α) (x : α) (i : String) :
    (pyUpsert key acc x).find? (fun y => key y == i) =
      if key x == i then some x else acc.find? (fun y => key y == i) := by
  unfold pyUpsert
  by_cases h : acc.any (fun y => key y == key x) = true
  · rw [if_pos h]
    by_cases hx : (key x == i) = true
    · rw [if_pos hx]
      obtain ⟨y0, hmem, hbeq⟩ := List.any_eq_true.mp h
      exact pyReplace_find?_eq key x i (by simpa using hx) acc
        ⟨y0, hmem, by simpa using hbeq⟩
    · rw [if_neg hx]
      exact pyReplace_find?_ne key x i (by simpa using hx) acc
  · rw [if_neg h]
    have hall : ∀ y ∈ acc, ¬ key y = key x := by
      intro y hy
      have hfalse : acc.any (fun y => key y == key x) = false := by
        simpa using h
      have := List.any_eq_false.mp hfalse y hy
      simpa using this
    by_cases hx : (key x == i) = true
    · have hxi : key x = i := by simpa using hx
      rw [if_pos hx, List.find?_append]
      have hnone : acc.find? (fun y => key y == i) = none := by
        apply List.find?_eq_none.mpr
        intro y hy
        simp only [beq_iff_eq]
        intro hc
        exact hall y hy (hc.trans hxi.symm)
      have hone : List.find? (fun y => key y == i) [x] = some x :=
        find?_cons_pos (fun y => key y == i) x [] hx
      rw [hnone, hone]
      rfl
    · rw [if_neg hx, List.find?_append]
      have hone : List.find? (fun y => key y == i) [x] = none := by
        refine List.find?_eq_none.mpr ?_
        intro y hy
        rcases List.mem_singleton.mp hy with rfl
        simpa using hx
      rw [hone]
      cases acc.find? (fun y => key y == i) <;> rfl

theorem find?_foldl_pyUpsert (key : α → String) :
    ∀ (l acc : List α) (i : String),
      ((l.foldl (pyUpsert key) acc).find? (fun y => key y == i)) =
        match l.reverse.find? (fun y => key y == i) with
        | some x => some x
        | none => acc.find? (fun y => key y == i)
  | [], acc, i => by simp
  | a :: l, acc, i => by
    rw [List.foldl_cons, find?_foldl_pyUpsert key l (pyUpsert key acc a) i]
    rw [List.reverse_cons, List.find?_append]
    cases hrev : l.reverse.find? (fun y => key y == i) with
    | some x => rfl
    | none =>
      rw [find?_pyUpsert]
      by_cases hx : (key a == i) = true
      · have h1 : List.find? (fun y => key y == i) [a] = some a :=
          find?_cons_pos (fun y => key y == i) a [] hx
        rw [h1, if_pos hx]
        rfl
      · have hxf : (key a == i) = false := by simpa using hx
        have h1 : List.find? (fun y => key y == i) [a] = none := by
          rw [find?_cons_neg (fun y => key y == i) a [] hxf]
          rfl
        rw [h1, if_neg hx]
        rfl

theorem find?_pyDictValues (key : α → String) (l : List α) (i : String) :
    (pyDictValues key l).find? (fun y => key y == i) =
      l.reverse.find? (fun y => key y == i) := by
  unfold pyDictValues
  rw [find?_foldl_pyUpsert key l [] i]
  cases l.reverse.find? (fun y => key y == i) <;> rfl

theorem nodup_keys_foldl_pyUpsert (key : α → String) :
    ∀ (l acc : List α), ((acc.map key).Nodup) →
      (((l.foldl (pyUpsert key) acc)).map key).Nodup
  | [], acc, h => h
  | a :: l, acc, h => by
    rw [List.foldl_cons]
    apply nodup_keys_foldl_pyUpsert key l
    by_cases hmem : acc.any (fun y => key y == key a) = true
    · unfold pyUpsert
      rw [if_pos hmem, pyReplace_map_key]
      exact h
    · have hfalse0 : acc.any (fun y => key y == key a) = false := by
        simpa using hmem
      rw [pyUpsert_map_key_absent key acc a hfalse0]
      rw [List.nodup_append]
      refine ⟨h, List.nodup_singleton _, ?_⟩
      intro b hb hb'
      rcases List.mem_singleton.mp hb' with rfl
      obtain ⟨y, hy, hky⟩ := List.mem_map.mp hb
      have hfalse : acc.any (fun y => key y == key a) = false := by
        simpa using hmem
      have := List.any_eq_false.mp hfalse y hy
      simp only [beq_iff_eq] at this
      exact this hky

theorem nodup_keys_pyDictValues (key : α → String) (l : List α) :
    ((pyDictValues key l).map key).Nodup :=
  nodup_keys_foldl_pyUpsert key l [] (by simp)

theorem foldl_pyUpsert_eq_append (key : α → String) :
    ∀ (l acc : List α), ((l.map key).Nodup) →
      (∀ z ∈ l, ∀ y ∈ acc, ¬ key y = key z) →
      l.foldl (pyUpsert key) acc = acc ++ l
  | [], acc, _, _ => by simp
  | a :: l, acc, hnd, hdisj => by
    rw [List.foldl_cons]
    have hany : acc.any (fun y => key y == key a) = false := by
      apply List.any_eq_false.mpr
      intro y hy
      simp only [beq_iff_eq]
      exact hdisj a (List.mem_cons_self a l) y hy
    have hup : pyUpsert key acc a = acc ++ [a] := by
      simp [pyUpsert, hany]
    rw [hup]
    rw [List.map_cons, List.nodup_cons] at hnd
    have step := foldl_pyUpsert_eq_append key l (acc ++ [a]) hnd.2 ?_
    · rw [step, List.append_assoc]
      rfl
    · intro z hz y hy
      rcases List.mem_append.mp hy with hya | hyx
      · exact hdisj z (List.mem_cons_of_mem a hz) y hya
      · rcases List.mem_singleton.mp hyx with rfl
        intro hc
        exact hnd.1 (hc ▸ List.mem_map_of_mem key hz)

theorem itemId_recompItem (it : GItem) : itemId (recompItem it) = itemId it := by
  cases it <;> rfl

theorem find?_map_recompItem :
    ∀ (l : List GItem) (i : String),
      (l.map recompItem).find? (fun it => itemId it == i) =
        (l.find? (fun it => itemId it == i)).map recompItem
  | [], _ => rfl
  | a :: l, i => by
    rw [List.map_cons]
    by_cases h : (itemId a == i) = true
    · have h1 : (itemId (recompItem a) == i) = true := by
        rw [itemId_recompItem]
        exact h
      rw [find?_cons_pos (fun it => itemId it == i) (recompItem a) _ h1,
        find?_cons_pos (fun it => itemId it == i) a _ h]
      rfl
    · have hf : (itemId a == i) = false := by simpa using h
      have h1 : (itemId (recompItem a) == i) = false := by
        rw [itemId_recompItem]
        exact hf
      rw [find?_cons_neg (fun it => itemId it == i) (recompItem a) _ h1,
        find?_cons_neg (fun it => itemId it == i) a _ hf]
      exact find?_map_recompItem l i

/-- C2: in `compose_network_files` the merged nodes and links are keyed by
`id`, but the dict comprehensions make the LAST occurrence of an id win,
not the first: merging two documents whose single node shares an id but
differs in `name` keeps the attributes of the second document, and a duplicated
link id keeps the `distance` of the second link. -/
theorem c2_compose_counterexample :
    (composeNetworkFiles
        [ { metadata := { type := "metadata", source := "f1" }
            nodes := [{ id := "n", name := "a", type := "network"
                        addrs := ["10.0.0.0/8"], typeId := 1
                        cls := "node network", label := "a (network)" }]
            links := [{ id := "e", type := "edge", source := "n"
                        target := "m", distance := 1 }] }
        , { metadata := { type := "metadata", source := "f2" }
            nodes := [{ id := "n", name := "b", type := "network"
                        addrs := ["10.0.0.0/8"], typeId := 1
                        cls := "node network", label := "b (network)" }]
            links := [{ id := "e", type := "edge", source := "n"
                        target := "m", distance := 7 }] } ]).nodes =
      [.node { id := "n", name := "b", type := "network"
               addrs := ["10.0.0.0/8"], typeId := 1
               cls := "node network", label := "n network" }] ∧
    (composeNetworkFiles
        [ { metadata := { type := "metadata", source := "f1" }
            nodes := [{ id := "n", name := "a", type := "network"
                        addrs := ["10.0.0.0/8"], typeId := 1
                        cls := "node network", label := "a (network)" }]
            links := [{ id := "e", type := "edge", source := "n"
                        target := "m", distance := 1 }] }
        , { metadata := { type := "metadata", source := "f2" }
            nodes := [{ id := "n", name := "b", type := "network"
                        addrs := ["10.0.0.0/8"], typeId := 1
                        cls := "node network", label := "b (network)" }]
            links := [{ id := "e", type := "edge", source := "n"
                        target := "m", distance := 7 }] } ]).links =
      [.edge { id := "e", type := "edge", source := "n", target := "m"
               distance := 7 }] ∧
    ("b" : String) ≠ "a" ∧ (7 : Nat) ≠ 1 := by
  exact ⟨by decide, by decide, by decide, by decide⟩

/-- C2 (amended): the nodes of the merged document are the union of input nodes
deduplicated by id in first-seen order, where for each id occurring in more
than one input the attributes of the LAST occurrence win (with `class` and
`label` recomputed for every merged node), and the merged links are the
union of input edges deduplicated by id where later duplicates replace
earlier ones. -/
theorem c2_compose_merge_amended (docs : List CDoc) (i : String) :
    ((composeNetworkFiles docs).nodes.map itemId).Nodup ∧
    ((composeNetworkFiles docs).links.map itemId).Nodup ∧
    (composeNetworkFiles docs).nodes.find? (fun it => itemId it == i) =
      (((docStream docs).filter
          (fun it => itemType it != "edge" && itemType it != "metadata")).reverse.find?
          (fun it => itemId it == i)).map recompItem ∧
    (composeNetworkFiles docs).links.find? (fun it => itemId it == i) =
      ((docStream docs).filter
          (fun it => itemType it == "edge")).reverse.find?
        (fun it => itemId it == i) := by
  refine ⟨?_, ?_, ?_, ?_⟩
  · show (((pyDictValues itemId _).map recompItem).map itemId).Nodup
    rw [List.map_map]
    have : (itemId ∘ recompItem) = itemId := by
      funext it
      exact itemId_recompItem it
    rw [this]
    exact nodup_keys_pyDictValues itemId _
  · exact nodup_keys_pyDictValues itemId _
  · show ((pyDictValues itemId _).map recompItem).find? _ = _
    rw [find?_map_recompItem, find?_pyDictValues]
  · exact find?_pyDictValues itemId _ i

/-- C8: `finder.validate` does NOT require `nodes` and `links` to be
non-empty: a document whose nodes and links lists are both present but
empty passes validation (and `load` then builds an empty graph), contrary
to the claim that such a document fails with a validation error. -/
theorem c8_validate_counterexample :
    finderValidate (.dict [("nodes", .list []), ("links", .list [])]) =
      .ok () ∧
    loadNodes { nodes := [], links := [] } = [] := by
  exact ⟨rfl, rfl⟩

theorem finderValidate_dict (l : List (String × PyVal)) :
    finderValidate (.dict l) =
      if !pyTruthy (.dict l) then .error .valueError
      else if (pyGet l "nodes").isNone || (pyGet l "links").isNone then
        .error .valueError
      else if !((pyGet l "nodes").all pyIsIterable &&
          (pyGet l "links").all pyIsIterable) then
        .error .valueError
      else .ok () := rfl

theorem finderValidate_list (l : List PyVal) :
    finderValidate (.list l) =
      if !pyTruthy (.list l) then .error .valueError
      else .error .typeError := rfl

theorem finderValidate_str (s : String) :
    finderValidate (.str s) =
      if !pyTruthy (.str s) then .error .valueError
      else .error .typeError := rfl

theorem finderValidate_int (n : Int) :
    finderValidate (.int n) =
      if !pyTruthy (.int n) then .error .valueError
      else .error .typeError := rfl

theorem loadEdges_foldl_eq_append :
    ∀ (l : List GEdge) (acc : List ((String × String) × GEdge)),
      l.Pairwise (fun d e =>
        sameEdgeKey (d.source, d.target) (e.source, e.target) = false) →
      (∀ e ∈ l, ∀ pr ∈ acc, sameEdgeKey pr.1 (e.source, e.target) = false) →
      l.foldl
          (fun acc e =>
            if acc.any (fun pr => sameEdgeKey pr.1 (e.source, e.target)) then
              acc.map (fun pr =>
                if sameEdgeKey pr.1 (e.source, e.target) then (pr.1, e)
                else pr)
            else acc ++ [((e.source, e.target), e)])
          acc =
        acc ++ l.map (fun e => ((e.source, e.target), e))
  | [], acc, _, _ => by simp
  | a :: l, acc, hpw, hdisj => by
    simp only [List.foldl_cons]
    have hany : acc.any
        (fun pr => sameEdgeKey pr.1 (a.source, a.target)) = false := by
      apply List.any_eq_false.mpr
      intro pr hpr
      simp [hdisj a (List.mem_cons_self a l) pr hpr]
    rw [if_neg (by simp [hany])]
    rw [List.pairwise_cons] at hpw
    have step := loadEdges_foldl_eq_append l
      (acc ++ [((a.source, a.target), a)]) hpw.2 ?_
    · rw [step, List.append_assoc]
      rfl
    · intro e he pr hpr
      rcases List.mem_append.mp hpr with hpa | hpx
      · exact hdisj e (List.mem_cons_of_mem a he) pr hpa
      · rcases List.mem_singleton.mp hpx with rfl
        exact hpw.1 e he

theorem loadEdges_eq_links (doc : GraphDoc)
    (h : doc.links.Pairwise (fun d e =>
      sameEdgeKey (d.source, d.target) (e.source, e.target) = false)) :
    loadEdges doc = doc.links.map (fun e => ((e.source, e.target), e)) := by
  unfold loadEdges
  rw [loadEdges_foldl_eq_append doc.links [] h
    (by intro e _ pr hpr; simp at hpr)]
  rfl

theorem mem_addNeighbor (y t : String) (acc : List String) (b : Bool) :
    (y ∈ (if b && !(acc.contains t) then acc ++ [t] else acc)) ↔
      (y ∈ acc ∨ (b = true ∧ t = y)) := by
  by_cases hb : b = true
  · by_cases hc : acc.contains t = true
    · have ht : t ∈ acc := by simpa using hc
      rw [if_neg (by simp [ht])]
      constructor
      · exact Or.inl
      · rintro (h | ⟨-, rfl⟩)
        · exact h
        · exact ht
    · rw [if_pos (by simp [hb, Bool.not_eq_true] at hc ⊢; exact hc)]
      simp [List.mem_append, hb, eq_comm]
  · rw [if_neg (by simp [hb])]
    simp [hb]

theorem mem_neighbors_step (x y : String) (acc : List String) (e : GEdge) :
    (y ∈
        (let acc1 :=
          if e.source == x && !(acc.contains e.target) then acc ++ [e.target]
          else acc
        if e.target == x && !(acc1.contains e.source) then acc1 ++ [e.source]
        else acc1)) ↔
      (y ∈ acc ∨
        ((e.source = x ∧ e.target = y) ∨ (e.target = x ∧ e.source = y))) := by
  have h1 := mem_addNeighbor y e.target acc (e.source == x)
  have h2 := mem_addNeighbor y e.source
    (if e.source == x && !(acc.contains e.target) then acc ++ [e.target]
     else acc)
    (e.target == x)
  simp only []
  rw [h2, h1]
  simp only [beq_iff_eq]
  tauto

theorem mem_neighbors_foldl (x : String) :
    ∀ (l : List GEdge) (acc : List String) (y : String),
      (y ∈ l.foldl
          (fun acc e =>
            let acc1 :=
              if e.source == x && !(acc.contains e.target) then
                acc ++ [e.target]
              else acc
            if e.target == x && !(acc1.contains e.source) then
              acc1 ++ [e.source]
            else acc1)
          acc) ↔
        (y ∈ acc ∨ ∃ e ∈ l,
          (e.source = x ∧ e.target = y) ∨ (e.target = x ∧ e.source = y))
  | [], acc, y => by simp
  | e :: l, acc, y => by
    simp only [List.foldl_cons]
    rw [mem_neighbors_foldl x l _ y]
    rw [mem_neighbors_step x y acc e]
    simp only [List.mem_cons]
    constructor
    · rintro ((hy | he) | ⟨d, hd, h⟩)
      · exact Or.inl hy
      · exact Or.inr ⟨e, Or.inl rfl, he⟩
      · exact Or.inr ⟨d, Or.inr hd, h⟩
    · rintro (hy | ⟨d, rfl | hd, h⟩)
      · exact Or.inl (Or.inl hy)
      · exact Or.inl (Or.inr h)
      · exact Or.inr ⟨d, hd, h⟩

theorem mem_neighborsOf (doc : GraphDoc) (x y : String) :
    y ∈ neighborsOf doc x ↔
      ∃ e ∈ doc.links,
        (e.source = x ∧ e.target = y) ∨ (e.target = x ∧ e.source = y) := by
  unfold neighborsOf
  rw [mem_neighbors_foldl x doc.links [] y]
  simp

theorem neighborsOf_symm (doc : GraphDoc) (x y : String) :
    (y ∈ neighborsOf doc x) ↔ (x ∈ neighborsOf doc y) := by
  rw [mem_neighborsOf, mem_neighborsOf]
  constructor
  · rintro ⟨e, he, ⟨h1, h2⟩ | ⟨h1, h2⟩⟩
    · exact ⟨e, he, Or.inr ⟨h2, h1⟩⟩
    · exact ⟨e, he, Or.inl ⟨h2, h1⟩⟩
  · rintro ⟨e, he, ⟨h1, h2⟩ | ⟨h1, h2⟩⟩
    · exact ⟨e, he, Or.inr ⟨h2, h1⟩⟩
    · exact ⟨e, he, Or.inl ⟨h2, h1⟩⟩

/-- C8 (amended): the validation of the loader fails exactly for a falsy
(empty) document, a non-mapping document, a document missing the `nodes`
or `links` key, or one whose `nodes`/`links` value is not iterable;
present-but-empty lists are accepted.  For documents with distinct node
ids the node list of the built graph is the node list of the document
verbatim; for documents whose links have pairwise distinct unordered
endpoint pairs, every listed link becomes one edge of the graph keyed by
its endpoint pair and carrying the whole link record (its distance and
the other edge attributes) as edge data; and the built graph is
undirected: adjacency membership is symmetric in the two endpoints. -/
theorem c8_validate_amended :
    (∀ cnf : PyVal,
      finderValidate cnf = .ok () ↔
        (pyTruthy cnf = true ∧ pyIsMapping cnf = true ∧
         ∀ l, cnf = .dict l →
           ((pyGet l "nodes").isSome = true ∧ (pyGet l "links").isSome = true ∧
            (pyGet l "nodes").all pyIsIterable = true ∧
            (pyGet l "links").all pyIsIterable = true))) ∧
    (∀ doc : GraphDoc, (doc.nodes.map GNode.id).Nodup →
      loadNodes doc = doc.nodes) ∧
    (∀ doc : GraphDoc,
      doc.links.Pairwise (fun d e =>
        sameEdgeKey (d.source, d.target) (e.source, e.target) = false) →
      loadEdges doc = doc.links.map (fun e => ((e.source, e.target), e))) ∧
    (∀ (doc : GraphDoc) (x y : String),
      (y ∈ neighborsOf doc x) ↔ (x ∈ neighborsOf doc y)) := by
  refine ⟨?_, ?_, ?_, ?_⟩
  · intro cnf
    cases cnf with
    | dict l =>
      rw [finderValidate_dict]
      by_cases ht : pyTruthy (.dict l) = true
      · rw [if_neg (by simp [ht])]
        by_cases hk : ((pyGet l "nodes").isNone || (pyGet l "links").isNone) = true
        · rw [if_pos hk]
          constructor
          · intro h
            exact absurd h (by simp)
          · intro h
            obtain ⟨hn, hl2, _, _⟩ := h.2.2 l rfl
            rcases Bool.or_eq_true _ _ ▸ hk with hc | hc
            · rw [Option.isNone_iff_eq_none] at hc
              rw [hc] at hn
              exact absurd hn (by simp)
            · rw [Option.isNone_iff_eq_none] at hc
              rw [hc] at hl2
              exact absurd hl2 (by simp)
        · rw [if_neg hk]
          simp only [Bool.or_eq_true, not_or, Bool.not_eq_true,
            Option.isNone_eq_false_iff, Option.isSome_iff_ne_none] at hk
          by_cases hi : ((pyGet l "nodes").all pyIsIterable &&
              (pyGet l "links").all pyIsIterable) = true
          · rw [if_neg (by simp [hi])]
            simp only [Bool.and_eq_true] at hi
            constructor
            · intro _
              refine ⟨ht, rfl, ?_⟩
              intro l2 hl2
              cases hl2
              exact ⟨by simpa [Option.isSome_iff_ne_none] using hk.1,
                by simpa [Option.isSome_iff_ne_none] using hk.2, hi.1, hi.2⟩
            · intro _
              rfl
          · have hif : ((pyGet l "nodes").all pyIsIterable &&
                (pyGet l "links").all pyIsIterable) = false := by
              simpa using hi
            rw [if_pos (by simp [hif])]
            constructor
            · intro h
              exact absurd h (by simp)
            · intro h
              obtain ⟨_, _, hin, hil⟩ := h.2.2 l rfl
              exact absurd (by simp [hin, hil] : ((pyGet l "nodes").all
                pyIsIterable && (pyGet l "links").all pyIsIterable) = true) hi
      · rw [if_pos (by simpa using ht)]
        constructor
        · intro h
          exact absurd h (by simp)
        · intro h
          exact absurd h.1 ht
    | list l =>
      rw [finderValidate_list]
      constructor
      · intro h
        by_cases ht : pyTruthy (.list l) = true
        · rw [if_neg (by simp [ht])] at h
          exact absurd h (by simp)
        · rw [if_pos (by simpa using ht)] at h
          exact absurd h (by simp)
      · intro h
        exact absurd h.2.1 (by simp [pyIsMapping])
    | str s =>
      rw [finderValidate_str]
      constructor
      · intro h
        by_cases ht : pyTruthy (.str s) = true
        · rw [if_neg (by simp [ht])] at h
          exact absurd h (by simp)
        · rw [if_pos (by simpa using ht)] at h
          exact absurd h (by simp)
      · intro h
        exact absurd h.2.1 (by simp [pyIsMapping])
    | int n =>
      rw [finderValidate_int]
      constructor
      · intro h
        by_cases ht : pyTruthy (.int n) = true
        · rw [if_neg (by simp [ht])] at h
          exact absurd h (by simp)
        · rw [if_pos (by simpa using ht)] at h
          exact absurd h (by simp)
      · intro h
        exact absurd h.2.1 (by simp [pyIsMapping])
    | none' =>
      constructor
      · intro h
        exact absurd h (by decide)
      · intro h
        exact absurd h.1 (by simp [pyTruthy])
  · intro doc hnd
    unfold loadNodes pyDictValues
    have := foldl_pyUpsert_eq_append GNode.id doc.nodes [] hnd
      (by intro z _ y hy; simp at hy)
    rw [this]
    rfl
  · intro doc h
    exact loadEdges_eq_links doc h
  · intro doc x y
    exact neighborsOf_symm doc x y

/-- A two-edge document exercising the edge store of the loader. -/
def c8EdgeDoc : GraphDoc :=
  { nodes := []
    links := [{ id := "e1", type := "net_edge", source := "a", target := "b"
                distance := 10 },
              { id := "e2", type := "net_edge", source := "b", target := "c"
                distance := 20 }] }

/-- Closed instance of `c8_validate_amended`. -/
theorem c8_validate_amended_witness :
    finderValidate (.dict [("nodes", .list [.int 1]), ("links", .list [])]) =
      .ok () ∧
    loadNodes
        { nodes := [{ id := "h", name := "h", type := "firewall", addrs := [] }]
          links := [] } =
      [{ id := "h", name := "h", type := "firewall", addrs := [] }] ∧
    loadEdges c8EdgeDoc =
      c8EdgeDoc.links.map (fun e => ((e.source, e.target), e)) ∧
    (("b" ∈ neighborsOf c8EdgeDoc "a") ↔ ("a" ∈ neighborsOf c8EdgeDoc "b")) := by
  refine ⟨?_, ?_, ?_, ?_⟩
  · exact (c8_validate_amended.1 _).mpr
      ⟨rfl, rfl, by
        intro l hl
        cases hl
        exact ⟨rfl, rfl, rfl, rfl⟩⟩
  · exact c8_validate_amended.2.1 _ (by decide)
  · exact c8_validate_amended.2.2.1 c8EdgeDoc (by decide)
  · exact c8_validate_amended.2.2.2 c8EdgeDoc "a" "b"

/-- A one-node document used to evaluate the same-node branch of
`find_paths`. -/
def c1Doc : GraphDoc :=
  { nodes := [{ id := "10.0.0.0/24", name := "10.0.0.0/24", type := "network"
                addrs := [.ip ⟨10, 0, 0, 0, some 24⟩] }]
    links := [] }

/-- C1: with `src` and `dst` resolving to the same node, `find_paths`
returns `[[node]]` for an unset `node_type` and for a matching concrete
`node_type`, but the wildcard `node_type="any"` yields the empty result:
the same-node branch requires `node_type != NODE_ANY`, the opposite of the
wildcard handling in the path-filtering branch. -/
theorem c1_find_paths_any_same_node_eval :
    findPathsF c1Doc ⟨10, 0, 0, 5, none⟩ ⟨10, 0, 0, 5, none⟩ none =
      .ok [[{ id := "10.0.0.0/24", name := "10.0.0.0/24", type := "network"
              addrs := [.ip ⟨10, 0, 0, 0, some 24⟩] }]] ∧
    findPathsF c1Doc ⟨10, 0, 0, 5, none⟩ ⟨10, 0, 0, 5, none⟩ (some "network") =
      .ok [[{ id := "10.0.0.0/24", name := "10.0.0.0/24", type := "network"
              addrs := [.ip ⟨10, 0, 0, 0, some 24⟩] }]] ∧
    findPathsF c1Doc ⟨10, 0, 0, 5, none⟩ ⟨10, 0, 0, 5, none⟩ (some "any") =
      .ok [] := by
  exact ⟨by decide, by decide, by decide⟩

/-- First node (in document order) of the three-node chain document. -/
def c3A : GNode :=
  { id := "10.0.1.0/24", name := "10.0.1.0/24", type := "network"
    addrs := [.ip ⟨10, 0, 1, 0, some 24⟩] }

/-- Second node in document order (the endpoint of the path). -/
def c3C : GNode :=
  { id := "10.0.3.0/24", name := "10.0.3.0/24", type := "network"
    addrs := [.ip ⟨10, 0, 3, 0, some 24⟩] }

/-- Third node in document order (the middle hop of the path). -/
def c3B : GNode :=
  { id := "10.0.2.0/24", name := "10.0.2.0/24", type := "network"
    addrs := [.ip ⟨10, 0, 2, 0, some 24⟩] }

/-- A chain A - B - C listed in the document as [A, C, B]. -/
def c3Doc : GraphDoc :=
  { nodes := [c3A, c3C, c3B]
    links := [ { id := "10.0.1.0/24_10.0.2.0/24", type := "edge"
                 source := "10.0.1.0/24", target := "10.0.2.0/24"
                 distance := 1 }
             , { id := "10.0.2.0/24_10.0.3.0/24", type := "edge"
                 source := "10.0.2.0/24", target := "10.0.3.0/24"
                 distance := 1 } ] }

/-- C3: the unique shortest path between the enclosing nodes visits
A, B, C in that order, but the materialized record list is [A, C, B] --
the document (graph iteration) order -- because the code filters the graph
nodes by membership in the path instead of walking the path. -/
theorem c3_materialize_counterexample :
    allShortestPaths c3Doc "10.0.1.0/24" "10.0.3.0/24" =
      some [["10.0.1.0/24", "10.0.2.0/24", "10.0.3.0/24"]] ∧
    findPathsF c3Doc ⟨10, 0, 1, 5, none⟩ ⟨10, 0, 3, 5, none⟩ none =
      .ok [[c3A, c3C, c3B]] ∧
    [c3A, c3C, c3B].map GNode.id ≠
      ["10.0.1.0/24", "10.0.2.0/24", "10.0.3.0/24"] := by
  exact ⟨by decide, by decide, by decide⟩

/-- C3 (amended): when the two ips resolve to distinct enclosing nodes,
each returned path is materialized as the full records of exactly the
nodes on a computed shortest path, ordered by the node order of the loaded
graph (the document order), not by position along the path. -/
theorem c3_materialize_amended (doc : GraphDoc) (src dst : IpStr)
    (sn dn : GNode) (res : List (List GNode))
    (hs : findANetNodeByIp doc src = .ok (some sn))
    (hd : findANetNodeByIp doc dst = .ok (some dn))
    (hne : ¬ sn = dn)
    (h : findPathsF doc src dst none = .ok res) :
    ∀ p ∈ res, ∃ ns ∈ (allShortestPaths doc sn.id dn.id).getD [],
      p = (loadNodes doc).filter (fun n => ns.contains n.id) := by
  unfold findPathsF at h
  rw [hs, hd] at h
  simp only [bind, Except.bind, pure, Except.pure] at h
  rw [if_neg hne] at h
  cases hasp : allShortestPaths doc sn.id dn.id with
  | none =>
    rw [hasp] at h
    exact absurd h (by simp)
  | some pids =>
    rw [hasp] at h
    simp only [ntTruthy, Bool.false_and, Bool.and_self] at h
    have hres : res = pids.map
        (fun ns => (loadNodes doc).filter (fun n => ns.contains n.id)) := by
      have := h
      simp only [Except.ok.injEq] at this
      exact this.symm
    intro p hp
    rw [hres] at hp
    obtain ⟨ns, hns, hfp⟩ := List.mem_map.mp hp
    exact ⟨ns, by simp [hasp, hns], hfp.symm⟩

/-- Closed instance of `c3_materialize_amended`. -/
theorem c3_materialize_amended_witness :
    ∃ ns ∈ (allShortestPaths c3Doc c3A.id c3C.id).getD [],
      [c3A, c3C, c3B] = (loadNodes c3Doc).filter (fun n => ns.contains n.id) :=
  c3_materialize_amended c3Doc ⟨10, 0, 1, 5, none⟩ ⟨10, 0, 3, 5, none⟩ c3A c3C
    [[c3A, c3C, c3B]] (by decide) (by decide) (by decide) (by decide)
    [c3A, c3C, c3B] (by decide)

theorem cpLe_total : ∀ a b : List Char, cpLe a b = true ∨ cpLe b a = true
  | [], b => by
    left
    cases b <;> rfl
  | a :: as, [] => by
    right
    rfl
  | c :: cs, d :: ds => by
    unfold cpLe
    by_cases h1 : c.toNat < d.toNat
    · left
      simp [h1]
    · by_cases h2 : d.toNat < c.toNat
      · right
        simp [h2]
      · rcases cpLe_total cs ds with h | h
        · left
          simp [h1, h2, h]
        · right
          simp [h1, h2, h]

theorem cpLe_trans :
    ∀ a b c : List Char, cpLe a b = true → cpLe b c = true → cpLe a c = true
  | [], _, c, _, _ => by cases c <;> rfl
  | x :: xs, [], _, h1, _ => by
    simp [cpLe] at h1
  | x :: xs, y :: ys, [], _, h2 => by
    simp [cpLe] at h2
  | x :: xs, y :: ys, z :: zs, h1, h2 => by
    unfold cpLe at h1 h2 ⊢
    by_cases hxy : x.toNat < y.toNat
    · by_cases hyz : y.toNat < z.toNat
      · simp [show x.toNat < z.toNat by omega]
      · by_cases hzy : z.toNat < y.toNat
        · simp [hyz, hzy] at h2
        · have : y.toNat = z.toNat := by omega
          simp [show x.toNat < z.toNat by omega]
    · by_cases hyx : y.toNat < x.toNat
      · simp [hxy, hyx] at h1
      · have hxeq : x.toNat = y.toNat := by omega
        by_cases hyz : y.toNat < z.toNat
        · simp [show x.toNat < z.toNat by omega]
        · by_cases hzy : z.toNat < y.toNat
          · simp [hyz, hzy] at h2
          · have hrec : cpLe xs ys = true := by
              simpa [hxy, hyx] using h1
            have hrec2 : cpLe ys zs = true := by
              simpa [hyz, hzy] using h2
            simp [show ¬ x.toNat < z.toNat by omega,
              show ¬ z.toNat < x.toNat by omega,
              cpLe_trans xs ys zs hrec hrec2]

instance : IsTotal String PyLe :=
  ⟨fun a b => cpLe_total a.data b.data⟩

instance : IsTrans String PyLe :=
  ⟨fun a b c h1 h2 => cpLe_trans a.data b.data c.data h1 h2⟩

theorem perm_flatMap_congr :
    ∀ (l : List α) (f g : α → List β), (∀ a ∈ l, (f a).Perm (g a)) →
      (l.flatMap f).Perm (l.flatMap g)
  | [], _, _, _ => List.Perm.refl _
  | a :: l, f, g, h => by
    rw [List.flatMap_cons, List.flatMap_cons]
    exact (h a (List.mem_cons_self a l)).append
      (perm_flatMap_congr l f g (fun b hb => h b (List.mem_cons_of_mem _ hb)))

theorem getByEdits_sorted_perm (r : AddrRef) (df : List FaRow) :
    List.Sorted PyLe (getFirewallAddressByEdits r df) ∧
    (getFirewallAddressByEdits r df).Perm
      ((refNames r).flatMap
        (fun e => (df.filter (fun row => row.edit == e)).flatMap FaRow.addrs)) := by
  cases r with
  | inl e =>
    constructor
    · exact List.sorted_insertionSort PyLe _
    · show (sortedStrings _).Perm _
      unfold sortedStrings
      refine (List.perm_insertionSort PyLe _).trans ?_
      rw [show refNames (.inl e) = [e] from rfl, List.flatMap_cons,
        List.flatMap_nil, List.append_nil]
  | inr es =>
    constructor
    · exact List.sorted_insertionSort PyLe _
    · show (sortedStrings _).Perm _
      unfold sortedStrings
      refine (List.perm_insertionSort PyLe _).trans ?_
      exact perm_flatMap_congr es _ _
        (fun e _ => List.perm_insertionSort PyLe _)

/-- C4: the resolved `srcaddrs` list is NOT deduplicated: two references
whose table rows carry the same prefix produce the prefix twice. -/
theorem c4_resolve_counterexample :
    (resolvSrcAndDstInFp
        { srcaddr := some (.inr ["a1", "a2"]), dstaddr := none
          srcaddrs := none, dstaddrs := none }
        [{ edit := "a1", addrs := ["10.0.0.0/8"] }
        , { edit := "a2", addrs := ["10.0.0.0/8"] }]).srcaddrs =
      some ["10.0.0.0/8", "10.0.0.0/8"] ∧
    ¬ (["10.0.0.0/8", "10.0.0.0/8"] : List String).Nodup := by
  exact ⟨by decide, by decide⟩

/-- C4 (amended): for every firewall policy edit with a truthy `srcaddr`
(resp. `dstaddr`) cell, the resolved `srcaddrs` (resp. `dstaddrs`) list is
the lexicographically sorted concatenation -- duplicates preserved -- of
the `addrs` of every combined-address-table row whose `edit` matches one
of the references. -/
theorem c4_resolve_amended (fp : FwPolicy) (df : List FaRow) :
    (∀ r, fp.srcaddr = some r → refTruthy r = true →
      ∃ l, (resolvSrcAndDstInFp fp df).srcaddrs = some l ∧
        List.Sorted PyLe l ∧
        l.Perm ((refNames r).flatMap
          (fun e => (df.filter (fun row => row.edit == e)).flatMap
            FaRow.addrs))) ∧
    (∀ r, fp.dstaddr = some r → refTruthy r = true →
      ∃ l, (resolvSrcAndDstInFp fp df).dstaddrs = some l ∧
        List.Sorted PyLe l ∧
        l.Perm ((refNames r).flatMap
          (fun e => (df.filter (fun row => row.edit == e)).flatMap
            FaRow.addrs))) := by
  constructor
  · intro r hs ht
    refine ⟨getFirewallAddressByEdits r df, ?_,
      (getByEdits_sorted_perm r df).1, (getByEdits_sorted_perm r df).2⟩
    cases hdst : fp.dstaddr with
    | none => simp [resolvSrcAndDstInFp, hs, ht, hdst]
    | some r2 =>
      by_cases ht2 : refTruthy r2 = true
      · simp [resolvSrcAndDstInFp, hs, ht, hdst, ht2]
      · simp [resolvSrcAndDstInFp, hs, ht, hdst, ht2]
  · intro r hd ht
    refine ⟨getFirewallAddressByEdits r df, ?_,
      (getByEdits_sorted_perm r df).1, (getByEdits_sorted_perm r df).2⟩
    cases hsrc : fp.srcaddr with
    | none => simp [resolvSrcAndDstInFp, hsrc, hd, ht]
    | some r1 =>
      by_cases ht1 : refTruthy r1 = true
      · simp [resolvSrcAndDstInFp, hsrc, ht1, hd, ht]
      · simp [resolvSrcAndDstInFp, hsrc, ht1, hd, ht]

/-- Closed instance of `c4_resolve_amended`. -/
theorem c4_resolve_amended_witness :
    ∃ l,
      (resolvSrcAndDstInFp
          { srcaddr := some (.inr ["g1", "g2"]), dstaddr := none
            srcaddrs := none, dstaddrs := none }
          [{ edit := "g1", addrs := ["172.16.0.0/16"] }
          , { edit := "g2", addrs := ["10.0.0.0/8"] }]).srcaddrs = some l ∧
      List.Sorted PyLe l ∧
      l.Perm ((refNames (.inr ["g1", "g2"])).flatMap
        (fun e =>
          (([{ edit := "g1", addrs := ["172.16.0.0/16"] }
            , { edit := "g2", addrs := ["10.0.0.0/8"] }] : List FaRow).filter
              (fun row => row.edit == e)).flatMap FaRow.addrs)) :=
  (c4_resolve_amended _ _).1 (.inr ["g1", "g2"]) rfl (by decide)

theorem iterIprangeGo_eq :
    ∀ (fuel lo hi : Nat), hi + 1 - lo ≤ fuel →
      iterIprangeGo fuel lo hi = (List.range (hi + 1 - lo)).map (fun k => lo + k)
  | 0, lo, hi, h => by
    have : hi + 1 - lo = 0 := by omega
    rw [this]
    rfl
  | fuel + 1, lo, hi, h => by
    unfold iterIprangeGo
    by_cases hle : lo ≤ hi
    · rw [if_pos hle]
      have hn : hi + 1 - lo = (hi + 1 - (lo + 1)) + 1 := by omega
      rw [iterIprangeGo_eq fuel (lo + 1) hi (by omega), hn,
        List.range_succ_eq_map, List.map_cons, List.map_map]
      congr 1
      apply List.map_congr_left
      intro k _
      show lo + 1 + k = lo + (k + 1)
      omega
    · rw [if_neg hle]
      have : hi + 1 - lo = 0 := by omega
      rw [this]
      rfl

theorem iterIprange_eq (lo hi : Nat) :
    iterIprange lo hi = (List.range (hi + 1 - lo)).map (fun k => lo + k) :=
  iterIprangeGo_eq _ _ _ (Nat.le_refl _)

theorem octetsOk_bounds (s : IpStr) (h : octetsOk s = true) :
    s.o1 ≤ 255 ∧ s.o2 ≤ 255 ∧ s.o3 ≤ 255 ∧ s.o4 ≤ 255 := by
  unfold octetsOk at h
  simp only [Bool.and_eq_true, decide_eq_true_eq] at h
  exact ⟨h.1.1.1, h.1.1.2, h.1.2, h.2⟩

theorem matchesIpRe_of_octetsOk (s : IpStr) (h : octetsOk s = true)
    (hp : s.pfx = none) : matchesIpRe s = true := by
  obtain ⟨h1, h2, h3, h4⟩ := octetsOk_bounds s h
  unfold matchesIpRe
  rw [hp]
  simp only [Bool.and_eq_true, decide_eq_true_eq]
  exact ⟨⟨⟨⟨by omega, by omega⟩, by omega⟩, by omega⟩, trivial⟩

theorem iprangeToIpsets_ip (ss se : IpStr) (pfx : Nat) :
    iprangeToIpsets (.ip ss) (.ip se) pfx =
      if !(matchesIpRe ss && matchesIpRe se) then
        .error "ValueError: should be address"
      else if ss.o1 ≠ se.o1 then
        .error "ValueError: looks in different networks"
      else if ss.pfx.isSome || se.pfx.isSome then
        .error "AddrFormatError: not a bare address"
      else if !(octetsOk ss && octetsOk se) then
        .error "AddrFormatError: invalid octets"
      else
        .ok ((iterIprange (ipVal ss) (ipVal se)).map
          (fun v => mkIpWithPfx v pfx)) := rfl

/-- C7: for well-formed bare IPv4 address strings, `iprange_to_ipsets`
returns the enumeration of every address value from start to end as an
individual `/32` entry when the two first octets agree, and raises the
address error exactly when they differ. -/
theorem c7_iprange_spec (ss se : IpStr)
    (hs1 : octetsOk ss = true) (hs2 : ss.pfx = none)
    (hs3 : octetsOk se = true) (hs4 : se.pfx = none) :
    (ss.o1 = se.o1 →
      iprangeToIpsets (.ip ss) (.ip se) 32 =
        .ok ((List.range (ipVal se + 1 - ipVal ss)).map
          (fun k => mkIpWithPfx (ipVal ss + k) 32))) ∧
    (¬ ss.o1 = se.o1 →
      iprangeToIpsets (.ip ss) (.ip se) 32 =
        .error "ValueError: looks in different networks") := by
  have hre1 := matchesIpRe_of_octetsOk ss hs1 hs2
  have hre2 := matchesIpRe_of_octetsOk se hs3 hs4
  constructor
  · intro heq
    rw [iprangeToIpsets_ip]
    rw [if_neg (by simp [hre1, hre2]), if_neg (by simp [heq]),
      if_neg (by simp [hs2, hs4]), if_neg (by simp [hs1, hs3])]
    rw [iterIprange_eq, List.map_map]
    rfl
  · intro hne
    rw [iprangeToIpsets_ip]
    rw [if_neg (by simp [hre1, hre2]), if_pos (by simpa using hne)]

/-- Closed instance of `c7_iprange_spec`. -/
theorem c7_iprange_spec_witness :
    iprangeToIpsets (.ip ⟨192, 168, 122, 1, none⟩)
        (.ip ⟨192, 168, 122, 3, none⟩) 32 =
      .ok ((List.range (ipVal ⟨192, 168, 122, 3, none⟩ + 1 -
            ipVal ⟨192, 168, 122, 1, none⟩)).map
        (fun k => mkIpWithPfx (ipVal ⟨192, 168, 122, 1, none⟩ + k) 32)) ∧
    iprangeToIpsets (.ip ⟨10, 0, 0, 1, none⟩) (.ip ⟨192, 168, 1, 1, none⟩) 32 =
      .error "ValueError: looks in different networks" :=
  ⟨(c7_iprange_spec _ _ (by decide) rfl (by decide) rfl).1 rfl,
   (c7_iprange_spec _ _ (by decide) rfl (by decide) rfl).2 (by decide)⟩

theorem matchesIpRe_of_octetsOk_pfx (s : IpStr) (p : Nat)
    (h : octetsOk s = true) (hp : s.pfx = some p) (hp99 : p ≤ 99) :
    matchesIpRe s = true := by
  obtain ⟨h1, h2, h3, h4⟩ := octetsOk_bounds s h
  unfold matchesIpRe
  rw [hp]
  simp only [Bool.and_eq_true, decide_eq_true_eq]
  exact ⟨⟨⟨⟨by omega, by omega⟩, by omega⟩, by omega⟩, hp99⟩

theorem toNetwork_ip (s : IpStr) :
    toNetwork (.ip s) =
      if !matchesIpRe s then .error "ValueError: an ip address str was expected"
      else
        match ipNetworkOfStr s with
        | .ok n => .ok n
        | .error _ => ipNetworkOfStr ⟨s.o1, s.o2, s.o3, s.o4, some 32⟩ := rfl

theorem toNetwork_hostbits (cand : IpStr) (p : Nat)
    (hc1 : octetsOk cand = true) (hc2 : cand.pfx = some p) (hc3 : p < 32)
    (hc4 : ¬ ipVal cand % 2 ^ (32 - p) = 0) :
    toNetwork (.ip cand) = .ok ⟨ipVal cand, 32⟩ := by
  have hre : matchesIpRe cand = true :=
    matchesIpRe_of_octetsOk_pfx cand p hc1 hc2 (by omega)
  rw [toNetwork_ip]
  rw [if_neg (by simp [hre])]
  have hfail : ipNetworkOfStr cand = .error "ValueError: invalid ip network" := by
    unfold ipNetworkOfStr
    rw [hc2]
    rw [if_neg]
    simp only [Option.getD_some, Bool.and_eq_true, decide_eq_true_eq, not_and]
    intro _ hmod
    exact hc4 hmod
  rw [hfail]
  have hok : ipNetworkOfStr ⟨cand.o1, cand.o2, cand.o3, cand.o4, some 32⟩ =
      .ok ⟨ipVal cand, 32⟩ := by
    unfold ipNetworkOfStr
    rw [if_pos]
    · rfl
    · have hoc : octetsOk ⟨cand.o1, cand.o2, cand.o3, cand.o4, some 32⟩ = true := by
        unfold octetsOk at hc1 ⊢
        exact hc1
      simp [hoc, Nat.mod_one]
  exact hok

/-- C10: a candidate prefix string with host bits set under its stated
prefix length is treated by the containment test as the `/32` host of its
address alone: for every queried bare IP the test succeeds exactly when the
query address value equals the candidate address value, regardless of
the stated network. -/
theorem c10_hostbits_candidate (q cand : IpStr) (p : Nat)
    (hq1 : octetsOk q = true) (hq2 : q.pfx = none)
    (hc1 : octetsOk cand = true) (hc2 : cand.pfx = some p) (hc3 : p < 32)
    (hc4 : ¬ ipVal cand % 2 ^ (32 - p) = 0) :
    isIpInAddrs q [.ip cand] = .ok (decide (ipVal q = ipVal cand)) := by
  have hnet := toNetwork_hostbits cand p hc1 hc2 hc3 hc4
  have hipa : normalizeIp q = ⟨q.o1, q.o2, q.o3, q.o4, some 32⟩ := by
    unfold normalizeIp
    rw [hq2]
  have hne : ¬ ((AddrStr.ip cand) = .ip (normalizeIp q)) := by
    rw [hipa]
    intro hco
    rw [AddrStr.ip.injEq] at hco
    rw [hco] at hc2
    simp at hc2
    omega
  have hiface : ipInterfaceOfStr (normalizeIp q) =
      .ok ⟨q.o1, q.o2, q.o3, q.o4, some 32⟩ := by
    rw [hipa]
    have hoc : octetsOk ⟨q.o1, q.o2, q.o3, q.o4, some 32⟩ = true := by
      unfold octetsOk at hq1 ⊢
      exact hq1
    unfold ipInterfaceOfStr
    rw [if_pos (by simp [hoc])]
    rfl
  unfold isIpInAddrs
  rw [if_neg (by simp)]
  unfold isIpInAddrsAux
  rw [if_neg hne]
  simp only [hnet, hiface, bind, Except.bind]
  have hival : ipVal ⟨q.o1, q.o2, q.o3, q.o4, some 32⟩ = ipVal q := rfl
  rw [hival]
  by_cases hv : ipVal q = ipVal cand
  · have hin : inNet ⟨ipVal cand, 32⟩ (ipVal q) = true := by
      unfold inNet netSize
      simp only [Bool.and_eq_true, decide_eq_true_eq]
      omega
    rw [if_pos hin]
    simp [hv]
  · have hin : inNet ⟨ipVal cand, 32⟩ (ipVal q) = false := by
      unfold inNet netSize
      simp only [Bool.and_eq_false_iff, decide_eq_false_iff_not]
      omega
    rw [if_neg (by simp [hin])]
    unfold isIpInAddrsAux
    simp [hv]

/-- Closed instance of `c10_hostbits_candidate`. -/
theorem c10_hostbits_candidate_witness :
    isIpInAddrs ⟨10, 0, 1, 2, none⟩ [.ip ⟨10, 0, 1, 2, some 24⟩] = .ok true ∧
    isIpInAddrs ⟨10, 0, 1, 3, none⟩ [.ip ⟨10, 0, 1, 2, some 24⟩] = .ok false := by
  constructor
  · have := c10_hostbits_candidate ⟨10, 0, 1, 2, none⟩ ⟨10, 0, 1, 2, some 24⟩ 24
      (by decide) rfl (by decide) rfl (by decide) (by decide)
    simpa using this
  · have := c10_hostbits_candidate ⟨10, 0, 1, 3, none⟩ ⟨10, 0, 1, 2, some 24⟩ 24
      (by decide) rfl (by decide) rfl (by decide) (by decide)
    simpa using this

/-- C9: when graph construction succeeds, the id of the firewall host node (and
name) is the `system global` hostname converted to lowercase; a present but
missing-or-empty hostname makes construction fail with the
missing-hostname error. -/
theorem c9_hostname_lowercase :
    (∀ (c : CfgTree) (g : DeviceGraphStart), nodeAndEdgesStart c = .ok g →
      ∃ sg rest, searchBlocks c (hasVdom c) "system global" = sg :: rest ∧
        g.host.id = lowerString (sg.hostname.getD "") ∧
        g.host.name = g.host.id ∧ ¬ g.host.id = "") ∧
    (∀ (c : CfgTree) (sg : LeafCfg) (rest : List LeafCfg),
      searchBlocks c (hasVdom c) "system global" = sg :: rest →
      (sg.hostname = none ∨ sg.hostname = some "") →
      nodeAndEdgesStart c =
        .error "ValueError: hostname configuration was not found") := by
  constructor
  · intro c g h
    cases hsg : searchBlocks c (hasVdom c) "system global" with
    | nil =>
      have hhost : hostnameFromConfigs c (hasVdom c) =
          .error "ValueError: no system global configs found" := by
        unfold hostnameFromConfigs
        rw [hsg]
      unfold nodeAndEdgesStart at h
      rw [hhost] at h
      simp [bind, Except.bind] at h
    | cons sg rest =>
      by_cases hh : (lowerString (sg.hostname.getD "") == "") = true
      · have hhost : hostnameFromConfigs c (hasVdom c) = .ok none := by
          unfold hostnameFromConfigs
          rw [hsg]
          simp [hh]
        unfold nodeAndEdgesStart at h
        rw [hhost] at h
        simp [bind, Except.bind] at h
      · have hhost : hostnameFromConfigs c (hasVdom c) =
            .ok (some (lowerString (sg.hostname.getD ""))) := by
          unfold hostnameFromConfigs
          rw [hsg]
          simp [hh]
        unfold nodeAndEdgesStart at h
        rw [hhost] at h
        simp only [bind, Except.bind] at h
        cases hif : listInterfaceAddrs c (hasVdom c) with
        | error e =>
          rw [hif] at h
          simp at h
        | ok ifas =>
          rw [hif] at h
          by_cases hemp : ifas.isEmpty = true
          · simp [hemp] at h
          · simp only [hemp, Bool.false_eq_true, if_false, Except.ok.injEq] at h
            subst h
            refine ⟨sg, rest, rfl, rfl, rfl, by simpa using hh⟩
  · intro c sg rest hsg hempty
    have hl : lowerString (sg.hostname.getD "") = "" := by
      rcases hempty with h0 | h0 <;> rw [h0] <;> rfl
    have hhost : hostnameFromConfigs c (hasVdom c) = .ok none := by
      unfold hostnameFromConfigs
      rw [hsg]
      simp [hl]
    unfold nodeAndEdgesStart
    rw [hhost]
    rfl

/-- Closed instance of `c9_hostname_lowercase`. -/
theorem c9_hostname_lowercase_witness :
    (∃ sg rest,
      searchBlocks
          { configs := [ .leaf { cname := "system global"
                                 hostname := some "FortiGate-01", edits := [] }
                       , .leaf { cname := "system interface", hostname := none
                                 edits := [{ edit := "port1"
                                             ip := some (.ip ⟨192, 168, 122, 10, none⟩,
                                               .ip ⟨255, 255, 255, 0, none⟩) }] } ] }
          (hasVdom
            { configs := [ .leaf { cname := "system global"
                                   hostname := some "FortiGate-01", edits := [] }
                         , .leaf { cname := "system interface", hostname := none
                                   edits := [{ edit := "port1"
                                               ip := some (.ip ⟨192, 168, 122, 10, none⟩,
                                                 .ip ⟨255, 255, 255, 0, none⟩) }] } ] })
          "system global" = sg :: rest ∧
      "fortigate-01" = lowerString (sg.hostname.getD "") ∧
      "fortigate-01" = "fortigate-01" ∧ ¬ ("fortigate-01" : String) = "") ∧
    nodeAndEdgesStart
        { configs := [ .leaf { cname := "system global", hostname := some ""
                               edits := [] } ] } =
      .error "ValueError: hostname configuration was not found" := by
  constructor
  · have := c9_hostname_lowercase.1
      { configs := [ .leaf { cname := "system global"
                             hostname := some "FortiGate-01", edits := [] }
                   , .leaf { cname := "system interface", hostname := none
                             edits := [{ edit := "port1"
                                         ip := some (.ip ⟨192, 168, 122, 10, none⟩,
                                           .ip ⟨255, 255, 255, 0, none⟩) }] } ] }
      { host := { id := "fortigate-01", name := "fortigate-01"
                  type := "firewall"
                  addrs := [.ip ⟨192, 168, 122, 10, some 24⟩] }
        ifNets := [⟨ipVal ⟨192, 168, 122, 0, none⟩, 24⟩] } (by decide)
    simpa using this
  · exact c9_hostname_lowercase.2
      { configs := [ .leaf { cname := "system global", hostname := some ""
                             edits := [] } ] }
      { cname := "system global", hostname := some "", edits := [] } []
      (by decide) (Or.inr rfl)

theorem subnetToIp_ip (sa sm : IpStr) :
    subnetToIp (.ip sa) (.ip sm) =
      if !(matchesIpRe sa && matchesIpRe sm) then
        .error "ValueError: should be address"
      else if sm = uniNetmask then ipInterfaceOfStr sa
      else
        match ipNetworkWithMask sa sm with
        | .ok n => .ok (strOfNet n)
        | .error _ => ipInterfaceOfStr sa := rfl

theorem strOfNet_ipVal (s : IpStr) (p : Nat) (h : octetsOk s = true) :
    strOfNet ⟨ipVal s, p⟩ = ⟨s.o1, s.o2, s.o3, s.o4, some p⟩ := by
  obtain ⟨h1, h2, h3, h4⟩ := octetsOk_bounds s h
  unfold strOfNet octet ipVal
  simp only [IpStr.mk.injEq]
  have e3 : (2 : Nat) ^ (8 * 3) = 16777216 := by norm_num
  have e2 : (2 : Nat) ^ (8 * 2) = 65536 := by norm_num
  have e1 : (2 : Nat) ^ (8 * 1) = 256 := by norm_num
  have e0 : (2 : Nat) ^ (8 * 0) = 1 := by norm_num
  rw [e3, e2, e1, e0]
  refine ⟨by omega, by omega, by omega, by omega, trivial⟩

theorem ipVal_inj (a b : IpStr) (ha : octetsOk a = true)
    (hb : octetsOk b = true) (hv : ipVal a = ipVal b) (hp : a.pfx = b.pfx) :
    a = b := by
  obtain ⟨a1, a2, a3, a4⟩ := octetsOk_bounds a ha
  obtain ⟨b1, b2, b3, b4⟩ := octetsOk_bounds b hb
  unfold ipVal at hv
  cases a
  cases b
  simp only [IpStr.mk.injEq]
  simp only at hv hp a1 a2 a3 a4 b1 b2 b3 b4
  refine ⟨by omega, by omega, by omega, by omega, hp⟩

theorem prefixOfMaskVal_maskBits : ∀ p < 33, prefixOfMaskVal (maskBits p) = some p := by
  decide

theorem ipVal_uniNetmask : ipVal uniNetmask = 2 ^ 32 - 1 := by decide

theorem maskBits_ne_allOnes (p : Nat) (h : p < 32) : maskBits p < 2 ^ 32 - 1 := by
  unfold maskBits
  have h2 : (2 : Nat) ^ 1 ≤ 2 ^ (32 - p) := Nat.pow_le_pow_right (by omega) (by omega)
  have h3 : (2 : Nat) ^ (32 - p) ≤ 2 ^ 32 := Nat.pow_le_pow_right (by omega) (by omega)
  have h4 : (2 : Nat) ^ 32 = 4294967296 := by norm_num
  omega

/-- C6: an invalid netmask (here the non-contiguous `255.0.255.0`, accepted
neither as a netmask nor as a hostmask) does not raise: `subnet_to_ip`
silently falls back to the host `/32` of the address. -/
theorem c6_subnet_counterexample :
    prefixOfMaskVal (ipVal ⟨255, 0, 255, 0, none⟩) = none ∧
    subnetToIp (.ip ⟨10, 0, 0, 0, none⟩) (.ip ⟨255, 0, 255, 0, none⟩) =
      .ok ⟨10, 0, 0, 0, some 32⟩ := by
  exact ⟨by decide, by decide⟩

/-- A string argument passes the `IPV4_IP_RE` check. -/
def matchesA : AddrStr → Bool
  | .ip s => matchesIpRe s
  | .other _ => false

/-- C6 (amended): `subnet_to_ip` returns the canonical CIDR for a valid
(address, netmask) pair, the host `/32` for the all-ones netmask, and fails
with an address error when either argument fails the IPv4 shape check; but
a pair whose address parses while its network form is invalid (bad mask or
host bits set) silently falls back to the host interface of the address
instead of failing. -/
theorem c6_subnet_amended :
    (∀ (sa sm : IpStr) (p : Nat),
      octetsOk sa = true → sa.pfx = none → octetsOk sm = true →
      sm.pfx = none → p ≤ 32 → ipVal sm = maskBits p →
      ipVal sa % 2 ^ (32 - p) = 0 →
      subnetToIp (.ip sa) (.ip sm) =
        .ok ⟨sa.o1, sa.o2, sa.o3, sa.o4, some p⟩) ∧
    (∀ sa : IpStr, octetsOk sa = true → sa.pfx = none →
      subnetToIp (.ip sa) (.ip uniNetmask) =
        .ok ⟨sa.o1, sa.o2, sa.o3, sa.o4, some 32⟩) ∧
    (∀ a m : AddrStr, (matchesA a && matchesA m) = false →
      subnetToIp a m = .error "ValueError: should be address") ∧
    (∀ sa sm : IpStr, matchesIpRe sa = true → matchesIpRe sm = true →
      octetsOk sa = true → sa.pfx = none → ¬ sm = uniNetmask →
      (ipNetworkWithMask sa sm).isOk = false →
      subnetToIp (.ip sa) (.ip sm) =
        .ok ⟨sa.o1, sa.o2, sa.o3, sa.o4, some 32⟩) := by
  have hiface : ∀ sa : IpStr, octetsOk sa = true → sa.pfx = none →
      ipInterfaceOfStr sa = .ok ⟨sa.o1, sa.o2, sa.o3, sa.o4, some 32⟩ := by
    intro sa hoc hpfx
    unfold ipInterfaceOfStr
    rw [hpfx]
    rw [if_pos (by simp [hoc])]
    rfl
  refine ⟨?_, ?_, ?_, ?_⟩
  · intro sa sm p hoa hpa hom hpm hple hmv hhost
    have hrea := matchesIpRe_of_octetsOk sa hoa hpa
    have hrem := matchesIpRe_of_octetsOk sm hom hpm
    rw [subnetToIp_ip, if_neg (by simp [hrea, hrem])]
    by_cases hp32 : p = 32
    · subst hp32
      have hsm : sm = uniNetmask := by
        apply ipVal_inj sm uniNetmask hom (by decide)
        · rw [hmv, ipVal_uniNetmask]
          rfl
        · rw [hpm]
          rfl
      rw [if_pos hsm, hiface sa hoa hpa]
    · have hne : ¬ sm = uniNetmask := by
        intro hc
        have := maskBits_ne_allOnes p (by omega)
        rw [hc, ipVal_uniNetmask] at hmv
        omega
      rw [if_neg hne]
      have hnet : ipNetworkWithMask sa sm = .ok ⟨ipVal sa, p⟩ := by
        unfold ipNetworkWithMask
        rw [if_neg (by simp [hpa, hpm]), if_neg (by simp [hoa]),
          if_neg (by simp [hom]), hmv,
          prefixOfMaskVal_maskBits p (by omega)]
        simp [hhost]
      rw [hnet]
      show Except.ok (strOfNet ⟨ipVal sa, p⟩) = _
      rw [strOfNet_ipVal sa p hoa]
  · intro sa hoa hpa
    have hrea := matchesIpRe_of_octetsOk sa hoa hpa
    have hreu : matchesIpRe uniNetmask = true := by decide
    rw [subnetToIp_ip, if_neg (by simp [hrea, hreu]), if_pos rfl,
      hiface sa hoa hpa]
  · intro a m hre
    cases a with
    | other r =>
      cases m <;> rfl
    | ip sa =>
      cases m with
      | other r => rfl
      | ip sm =>
        rw [subnetToIp_ip, if_pos]
        have : (matchesIpRe sa && matchesIpRe sm) = false := by
          simpa [matchesA] using hre
        simp [this]
  · intro sa sm hrea hrem hoa hpa hneq hfail
    rw [subnetToIp_ip, if_neg (by simp [hrea, hrem]), if_neg hneq]
    cases hm : ipNetworkWithMask sa sm with
    | ok n =>
      rw [hm] at hfail
      simp [Except.isOk, Except.toBool] at hfail
    | error e =>
      exact hiface sa hoa hpa

/-- Closed instance of `c6_subnet_amended`. -/
theorem c6_subnet_amended_witness :
    subnetToIp (.ip ⟨10, 0, 0, 0, none⟩) (.ip ⟨255, 0, 0, 0, none⟩) =
      .ok ⟨10, 0, 0, 0, some 8⟩ ∧
    subnetToIp (.ip ⟨10, 0, 0, 1, none⟩) (.ip ⟨255, 255, 255, 255, none⟩) =
      .ok ⟨10, 0, 0, 1, some 32⟩ ∧
    subnetToIp (.other "aaa") (.ip ⟨255, 0, 0, 0, none⟩) =
      .error "ValueError: should be address" ∧
    subnetToIp (.ip ⟨10, 0, 0, 1, none⟩) (.ip ⟨255, 255, 255, 0, none⟩) =
      .ok ⟨10, 0, 0, 1, some 32⟩ :=
  ⟨c6_subnet_amended.1 _ _ 8 (by decide) rfl (by decide) rfl (by decide)
      (by decide) (by decide),
   c6_subnet_amended.2.1 _ (by decide) rfl,
   c6_subnet_amended.2.2.1 _ _ (by decide),
   c6_subnet_amended.2.2.2 _ _ (by decide) (by decide) (by decide) rfl
      (by decide) (by decide)⟩

/-- A canonical prefix string: valid octets, an explicit prefix of at most
32, and no host bits set. -/
def CanonPfx (s : IpStr) : Prop :=
  octetsOk s = true ∧ s.pfx.isSome = true ∧ s.pfx.getD 32 ≤ 32 ∧
    ipVal s % 2 ^ (32 - s.pfx.getD 32) = 0

instance (s : IpStr) : Decidable (CanonPfx s) := by
  unfold CanonPfx
  infer_instance

/-- A parsed network is in range and aligned. -/
def ValidNet (n : Net4) : Prop :=
  n.plen ≤ 32 ∧ n.addr < 2 ^ 32 ∧ n.addr % 2 ^ (32 - n.plen) = 0

theorem ipVal_lt (s : IpStr) (h : octetsOk s = true) : ipVal s < 2 ^ 32 := by
  obtain ⟨h1, h2, h3, h4⟩ := octetsOk_bounds s h
  unfold ipVal
  have : (2 : Nat) ^ 32 = 4294967296 := by norm_num
  omega

theorem ipNetworkOfStr_canon (s : IpStr) (h : CanonPfx s) :
    ipNetworkOfStr s = .ok ⟨ipVal s, s.pfx.getD 32⟩ := by
  obtain ⟨h1, h2, h3, h4⟩ := h
  unfold ipNetworkOfStr
  rw [if_pos]
  simp [h1, h3, h4]

theorem validNet_of_canon (s : IpStr) (h : CanonPfx s) :
    ValidNet ⟨ipVal s, s.pfx.getD 32⟩ :=
  ⟨h.2.2.1, ipVal_lt s h.1, h.2.2.2⟩

theorem div_block_iff (a t s q : Nat) (hq : q ∣ s) (hqpos : 0 < q)
    (hspos : 0 < s) (haq : a % q = 0) :
    (t * s ≤ a ∧ a + (q - 1) ≤ t * s + (s - 1)) ↔ a / s = t := by
  have hqs : q ≤ s := Nat.le_of_dvd hspos hq
  constructor
  · rintro ⟨hlo, hhi⟩
    refine Nat.div_eq_of_lt_le hlo ?_
    have hexp : (t + 1) * s = t * s + s := by ring
    omega
  · rintro rfl
    refine ⟨Nat.div_mul_le_self a s, ?_⟩
    have hdm : a / s * s + a % s = a := Nat.div_add_mod' a s
    have hdvd_a : q ∣ a := Nat.dvd_of_mod_eq_zero haq
    have hdvd_mod : q ∣ a % s := (Nat.dvd_mod_iff hq).mpr hdvd_a
    have hlt : a % s < s := Nat.mod_lt a hspos
    obtain ⟨k, hk⟩ := hdvd_mod
    obtain ⟨m, hm⟩ := hq
    have hkm : k < m := by
      apply Nat.lt_of_mul_lt_mul_left (a := q)
      rw [← hk, ← hm]
      exact hlt
    have hbound : q * (k + 1) ≤ q * m := Nat.mul_le_mul_left q hkm
    rw [Nat.mul_add, Nat.mul_one] at hbound
    omega

theorem subnetOf_trunc_iff (n1 n2 : Net4) (p : Nat) (hp : p ≤ n2.plen)
    (hp32 : n2.plen ≤ 32) (h2 : ValidNet n2) :
    (subnetOf n2 (truncNet n1 p) = true) ↔
      n2.addr / 2 ^ (32 - p) = n1.addr / 2 ^ (32 - p) := by
  unfold subnetOf truncNet netSize
  simp only [Bool.and_eq_true, decide_eq_true_eq]
  exact div_block_iff n2.addr (n1.addr / 2 ^ (32 - p)) (2 ^ (32 - p))
    (2 ^ (32 - n2.plen)) (pow_dvd_pow 2 (by omega))
    (Nat.pos_pow_of_pos _ (by omega)) (Nat.pos_pow_of_pos _ (by omega)) h2.2.2

theorem findSome?_congr_mem :
    ∀ (l : List α) (f g : α → Option β), (∀ a ∈ l, f a = g a) →
      l.findSome? f = l.findSome? g
  | [], _, _, _ => rfl
  | a :: l, f, g, h => by
    rw [List.findSome?_cons, List.findSome?_cons, h a (List.mem_cons_self a l),
      findSome?_congr_mem l f g (fun b hb => h b (List.mem_cons_of_mem a hb))]

theorem findSupernetFrom_comm (n1 n2 : Net4) (heq : n1.plen = n2.plen)
    (h1 : ValidNet n1) (h2 : ValidNet n2) :
    findSupernetFrom n1 n2 = findSupernetFrom n2 n1 := by
  unfold findSupernetFrom
  rw [heq]
  apply findSome?_congr_mem
  intro p hmem
  obtain ⟨i, hi, hpi⟩ := List.mem_map.mp hmem
  rw [List.mem_range] at hi
  have hp2 : p ≤ n2.plen := by omega
  have hp1 : p ≤ n1.plen := by omega
  have hiff1 := subnetOf_trunc_iff n1 n2 p hp2 h2.1 h2
  have hiff2 := subnetOf_trunc_iff n2 n1 p hp1 h1.1 h1
  by_cases hqq : n2.addr / 2 ^ (32 - p) = n1.addr / 2 ^ (32 - p)
  · have hb1 : subnetOf n2 (truncNet n1 p) = true := hiff1.mpr hqq
    have hb2 : subnetOf n1 (truncNet n2 p) = true := hiff2.mpr hqq.symm
    rw [if_pos hb1, if_pos hb2]
    unfold truncNet
    rw [hqq]
  · have hb1 : subnetOf n2 (truncNet n1 p) = false := by
      rcases Bool.eq_false_or_eq_true (subnetOf n2 (truncNet n1 p)) with h | h
      · exact absurd (hiff1.mp h) hqq
      · exact h
    have hb2 : subnetOf n1 (truncNet n2 p) = false := by
      rcases Bool.eq_false_or_eq_true (subnetOf n1 (truncNet n2 p)) with h | h
      · exact absurd (hiff2.mp h).symm hqq
      · exact h
    rw [if_neg (by simp [hb1]), if_neg (by simp [hb2])]

theorem supernetOfTwo_comm (n1 n2 : Net4) (h1 : ValidNet n1)
    (h2 : ValidNet n2) : supernetOfTwo n1 n2 = supernetOfTwo n2 n1 := by
  unfold supernetOfTwo
  rcases Nat.lt_trichotomy n1.plen n2.plen with h | h | h
  · rw [if_pos (Nat.le_of_lt h), if_neg (by omega)]
  · rw [if_pos (Nat.le_of_eq h), if_pos (Nat.le_of_eq h.symm),
      findSupernetFrom_comm n1 n2 h h1 h2]
  · rw [if_neg (by omega), if_pos (Nat.le_of_lt h)]

theorem distNets_comm (n1 n2 : Net4) (h1 : ValidNet n1) (h2 : ValidNet n2) :
    distNets n1 n2 = distNets n2 n1 := by
  unfold distNets
  by_cases hc1 : (decide (netSize n1 = 1) && inNet n2 n1.addr) = true
  · by_cases hc2 : (decide (netSize n2 = 1) && inNet n1 n2.addr) = true
    · rw [if_pos hc1, if_pos hc2]
    · rw [if_pos hc1, if_neg hc2, if_pos hc1]
  · by_cases hc2 : (decide (netSize n2 = 1) && inNet n1 n2.addr) = true
    · rw [if_neg hc1, if_pos hc2, if_pos hc2]
    · rw [if_neg hc1, if_neg hc2, if_neg hc2, if_neg hc1]
      by_cases hc3 : (subnetOf n1 n2 || subnetOf n2 n1) = true
      · have hc3r : (subnetOf n2 n1 || subnetOf n1 n2) = true := by
          rw [Bool.or_comm]
          exact hc3
        rw [if_pos hc3, if_pos hc3r, Nat.max_comm, Nat.min_comm]
      · have hc3r : ¬ (subnetOf n2 n1 || subnetOf n1 n2) = true := by
          rw [Bool.or_comm]
          exact hc3
        rw [if_neg hc3, if_neg hc3r, supernetOfTwo_comm n1 n2 h1 h2]
        cases supernetOfTwo n2 n1 with
        | none => rfl
        | some sn => rw [Nat.add_comm n1.plen n2.plen]

theorem distanceS_ok (s1 s2 : IpStr) (hne : ¬ (AddrStr.ip s1 = .ip s2))
    (n1 n2 : Net4) (h1 : ipNetworkOfStr s1 = .ok n1)
    (h2 : ipNetworkOfStr s2 = .ok n2) :
    distanceS (.ip s1) (.ip s2) = .ok (distNets n1 n2) := by
  unfold distanceS
  rw [if_neg hne]
  simp only [bind, Except.bind, h1, h2]

theorem ipNetworkOfStr_host (s : IpStr) (ho : octetsOk s = true)
    (hp : s.pfx = none ∨ s.pfx = some 32) :
    ipNetworkOfStr s = .ok ⟨ipVal s, 32⟩ := by
  unfold ipNetworkOfStr
  rcases hp with h0 | h0 <;>
    rw [h0] <;>
    rw [if_pos (by simp [ho, Nat.mod_one])] <;>
    rfl

/-- C5: the distance function returns 0 on syntactically equal canonical
prefixes, is symmetric on canonical prefixes, and returns 1 (the base)
for a host address contained in a wider network. -/
theorem c5_distance_properties :
    (∀ X : IpStr, CanonPfx X → distanceS (.ip X) (.ip X) = .ok (.fin 0)) ∧
    (∀ A B : IpStr, CanonPfx A → CanonPfx B →
      distanceS (.ip A) (.ip B) = distanceS (.ip B) (.ip A)) ∧
    (∀ hS N : IpStr, octetsOk hS = true →
      (hS.pfx = none ∨ hS.pfx = some 32) → CanonPfx N →
      N.pfx.getD 32 < 32 →
      inNet ⟨ipVal N, N.pfx.getD 32⟩ (ipVal hS) = true →
      distanceS (.ip hS) (.ip N) = .ok (.fin 1)) := by
  refine ⟨?_, ?_, ?_⟩
  · intro X _
    unfold distanceS
    rw [if_pos rfl]
  · intro A B hA hB
    by_cases hab : A = B
    · subst hab
      rfl
    · have hne1 : ¬ (AddrStr.ip A = .ip B) := by
        simp only [AddrStr.ip.injEq]
        exact hab
      have hne2 : ¬ (AddrStr.ip B = .ip A) := by
        simp only [AddrStr.ip.injEq]
        intro hc
        exact hab hc.symm
      rw [distanceS_ok A B hne1 _ _ (ipNetworkOfStr_canon A hA)
          (ipNetworkOfStr_canon B hB),
        distanceS_ok B A hne2 _ _ (ipNetworkOfStr_canon B hB)
          (ipNetworkOfStr_canon A hA),
        distNets_comm _ _ (validNet_of_canon A hA) (validNet_of_canon B hB)]
  · intro hS N ho hp hN hlt hin
    have hne : ¬ (AddrStr.ip hS = .ip N) := by
      simp only [AddrStr.ip.injEq]
      intro hc
      subst hc
      rcases hp with h0 | h0
      · have hsome := hN.2.1
        rw [h0] at hsome
        simp at hsome
      · rw [h0] at hlt
        simp at hlt
    rw [distanceS_ok hS N hne _ _ (ipNetworkOfStr_host hS ho hp)
        (ipNetworkOfStr_canon N hN)]
    unfold distNets
    rw [if_pos]
    simp only [Bool.and_eq_true, decide_eq_true_eq]
    constructor
    · unfold netSize
      norm_num
    · exact hin

/-- Closed instance of `c5_distance_properties`. -/
theorem c5_distance_properties_witness :
    distanceS (.ip ⟨192, 168, 122, 0, some 24⟩)
        (.ip ⟨192, 168, 122, 0, some 24⟩) = .ok (.fin 0) ∧
    distanceS (.ip ⟨192, 168, 122, 0, some 24⟩) (.ip ⟨10, 0, 0, 0, some 8⟩) =
      distanceS (.ip ⟨10, 0, 0, 0, some 8⟩)
        (.ip ⟨192, 168, 122, 0, some 24⟩) ∧
    distanceS (.ip ⟨192, 168, 122, 1, none⟩)
        (.ip ⟨192, 168, 122, 0, some 24⟩) = .ok (.fin 1) :=
  ⟨c5_distance_properties.1 _ (by decide),
   c5_distance_properties.2.1 _ _ (by decide) (by decide),
   c5_distance_properties.2.2 _ _ (by decide) (Or.inl rfl) (by decide)
     (by decide) (by decide)⟩
